import Mathlib

attribute [local semireducible] Rat.add Rat.mul Rat.sub Rat.inv Rat.ofScientific

set_option maxRecDepth 8000

/-!
Verification development for the RDG (Ribosome Decision Graph) engine of this
repository: a shallow embedding of src/demos/shared/rdg-engine.js (sequence
scanning, probability model, scanning-flux propagation, reporter library,
translon construction) and of the tree-layout module, together with theorems
settling the specification claims.

Modelling conventions:
- an RNA sequence is a list of characters; the JS substring(i, i+3) is codonAt;
- JS numbers are modelled as rationals; Math.exp is transcendental, so every
  function that calls it takes a parameter rexp standing for Math.exp, and all
  clamping and arithmetic structure stays explicit;
- a JS Map is an association list with replace-or-append set semantics, which
  preserves insertion order exactly as a JS Map does;
- Array.prototype.sort with a consistent comparator is a stable sort (ES2019);
  it is modelled by a stable insertion sort on the relation "comparator(a,b)
  is nonpositive";
- number.toFixed(d) followed by parseFloat is modelled as exact decimal
  rounding, half up, which agrees with JS on the nonnegative values that occur;
- a field a JS object may lack (initiationProbability, index of a start
  annotation) is an Option; the JS test x !== undefined is matching on the
  Option, and the JS fallback x || d (false on undefined and on 0) is jsOrQ.
-/

/-! ## Basic utilities -/

abbrev RnaSeq := List Char

/-- Source: sequence.substring(i, i + 3). -/
def codonAt (seq : RnaSeq) (i : Nat) : List Char :=
  (seq.drop i).take 3

/-- Source: Math.max(lo, Math.min(hi, x)). -/
def clampQ (lo hi x : ℚ) : ℚ := max lo (min hi x)

/-- Source: the JS fallback (o || d) on a number that may be undefined:
undefined and 0 are falsy, any other rational is truthy. -/
def jsOrQ (o : Option ℚ) (d : ℚ) : ℚ :=
  match o with
  | some v => if v = 0 then d else v
  | none => d

/-- Source: parseFloat(x.toFixed(d)) on the nonnegative values the engine
produces: decimal rounding, half up, to d digits. -/
def roundToFixed (d : Nat) (x : ℚ) : ℚ :=
  ((round (x * (10 : ℚ) ^ d) : ℤ) : ℚ) / (10 : ℚ) ^ d

/-- Source: the template literal appending an index to the letter T. -/
def tLabel (n : Nat) : String := "T" ++ toString n

/-- Source: Map.prototype.set — replace the value under an existing key,
otherwise append in insertion order. -/
def mapSet (m : List (Nat × ℚ)) (k : Nat) (v : ℚ) : List (Nat × ℚ) :=
  if m.any (fun e => e.1 == k) then
    m.map (fun e => if e.1 == k then (k, v) else e)
  else
    m ++ [(k, v)]

/-- Source: Map.prototype.get (undefined when the key is absent). -/
def mapGet (m : List (Nat × ℚ)) (k : Nat) : Option ℚ :=
  (m.find? (fun e => e.1 == k)).map Prod.snd

/-- Source: let max = 0; flux.forEach(v => if (v > max) max = v). -/
def mapMaxVal (m : List (Nat × ℚ)) : ℚ :=
  m.foldl (fun acc e => if acc < e.2 then e.2 else acc) 0

/-- Insert an element in front of the first list element it precedes-or-ties
(r a b true means comparator(a, b) is nonpositive, a goes before b). -/
def orderedInsertB (r : α → α → Bool) (a : α) : List α → List α
  | [] => [a]
  | b :: l => if r a b then a :: b :: l else b :: orderedInsertB r a l

/-- Stable insertion sort modelling Array.prototype.sort with a consistent
comparator: an element is inserted into the sorted later part, landing before
every element it ties with, which preserves original order on ties. -/
def insertionSortB (r : α → α → Bool) : List α → List α
  | [] => []
  | a :: l => orderedInsertB r a (insertionSortB r l)

/-- Source: arr.map((x, idx) => f(idx, x)) and forEach loops carrying the
index, unfolded with an explicit starting index. -/
def mapIdxFrom (f : Nat → α → β) : Nat → List α → List β
  | _, [] => []
  | k, a :: l => f k a :: mapIdxFrom f (k + 1) l

/-! ## Constants (RDG_CONSTANTS, DEFAULT_RDG_PARAMS) -/

def AUGc : List Char := ['A', 'U', 'G']

def UAAc : List Char := ['U', 'A', 'A']

/-- Source: Object.keys(RDG_CONSTANTS.START_CODONS), in declaration order. -/
def START_CODON_LIST : List (List Char) :=
  [['A', 'U', 'G'], ['C', 'U', 'G'], ['U', 'U', 'G'], ['G', 'U', 'G'],
   ['A', 'C', 'G'], ['A', 'U', 'U'], ['A', 'U', 'A'], ['A', 'U', 'C']]

/-- Source: RDG_CONSTANTS.STOP_CODONS. -/
def STOP_CODONS : List (List Char) :=
  [['U', 'A', 'A'], ['U', 'A', 'G'], ['U', 'G', 'A']]

structure RDGParams where
  baseP : ℚ
  nearCognatePenalty : ℚ
  distanceD0 : ℚ
  gcBonus : ℚ
  reinitiationBase : ℚ
  lengthL0 : ℚ
  spacingS0 : ℚ
deriving DecidableEq

def DEFAULT_RDG_PARAMS : RDGParams :=
  { baseP := 0.9
    nearCognatePenalty := 0.5
    distanceD0 := 40
    gcBonus := 0.3
    reinitiationBase := 0.3
    lengthL0 := 100
    spacingS0 := 50 }

/-- A readthrough-stop annotation: pos, frame and probability. -/
structure RTStop where
  pos : Nat
  frame : Nat
  probability : ℚ
deriving DecidableEq

/-- Source: readthroughStops.some(rt => rt.pos === j). -/
def rtHas (rts : List RTStop) (j : Nat) : Bool :=
  rts.any (fun rt => rt.pos == j)

/-! ## Sequence scanner -/

/-- Source: calculateKozakScore — +0.6 when the nucleotide at pos-3 is G or A
(only checked when pos is at least 3), +0.4 when the nucleotide at pos+3 is G
(only checked in bounds). -/
def calculateKozakScore (seq : RnaSeq) (startPos : Nat) : ℚ :=
  let s1 : ℚ :=
    if 3 ≤ startPos then
      match seq.get? (startPos - 3) with
      | some c => if c = 'G' ∨ c = 'A' then 0.6 else 0
      | none => 0
    else 0
  let s2 : ℚ :=
    if startPos + 3 < seq.length then
      match seq.get? (startPos + 3) with
      | some c => if c = 'G' then 0.4 else 0
      | none => 0
    else 0
  s1 + s2

/-- Source: calculateDownstreamGC — G/C fraction of the 30-nt window starting
at pos+3, clipped to the sequence end; 0.5 for an empty window. -/
def calculateDownstreamGC (seq : RnaSeq) (startPos : Nat) : ℚ :=
  let window := (seq.drop (startPos + 3)).take 30
  let gcCount := window.countP (fun c => c == 'G' || c == 'C')
  if 0 < window.length then (gcCount : ℚ) / (window.length : ℚ) else 0.5

/-- Source: the stop-search loop inside findStartCodons (and the identical
inline search of the tree-layout module): for j stepping by 3 while
j < sequence.length - 2, return the first j holding a stop triplet whose
position is not a readthrough stop.  The loop is realized with a structural
fuel argument so that it computes by iota reduction; findStopLoop runs it
with fuel seq.length, which is never exhausted (findStopLoop_unfold recovers
the literal while-loop unfolding). -/
def findStopLoopGo (seq : RnaSeq) (rts : List RTStop) : Nat → Nat → Option Nat
  | 0, _ => none
  | fuel + 1, j =>
    if j < seq.length - 2 then
      if codonAt seq j ∈ STOP_CODONS ∧ rtHas rts j = false then some j
      else findStopLoopGo seq rts fuel (j + 3)
    else none

def findStopLoop (seq : RnaSeq) (rts : List RTStop) (j : Nat) : Option Nat :=
  findStopLoopGo seq rts seq.length j

/-- Source: stopPos — position of the found stop plus 3 (the stop codon is
included in the ORF span), or the sequence length when none is found. -/
def stopPosFor (seq : RnaSeq) (rts : List RTStop) (i : Nat) : Nat :=
  match findStopLoop seq rts (i + 3) with
  | some j => j + 3
  | none => seq.length

/-- A start-codon record as findStartCodons builds it; initiationProbability
and index are attached later by identifyFeatures or by callers, so they are
optional here (undefined in the JS object until set). -/
structure StartCodon where
  pos : Nat
  codon : List Char
  frame : Nat
  isAUG : Bool
  stopPos : Nat
  orfLength : Nat
  kozakScore : ℚ
  gcContent : ℚ
  initiationProbability : Option ℚ := none
  index : Option Nat := none
deriving DecidableEq

/-- Source: findStartCodons — scan every offset i < length - 2, keep the
offsets holding one of the eight start codons, and build the record. -/
def findStartCodons (seq : RnaSeq) (rts : List RTStop) : List StartCodon :=
  (List.range (seq.length - 2)).filterMap (fun i =>
    let codon := codonAt seq i
    if codon ∈ START_CODON_LIST then
      let stopPos := stopPosFor seq rts i
      some { pos := i
             codon := codon
             frame := i % 3
             isAUG := codon = AUGc
             stopPos := stopPos
             orfLength := stopPos - i
             kozakScore := calculateKozakScore seq i
             gcContent := calculateDownstreamGC seq i }
    else none)

/-- A stop-codon record as findStopCodons builds it. -/
structure StopCodonAnn where
  pos : Nat
  codon : List Char
  frame : Nat
deriving DecidableEq

/-- Source: findStopCodons. -/
def findStopCodons (seq : RnaSeq) : List StopCodonAnn :=
  (List.range (seq.length - 2)).filterMap (fun i =>
    let codon := codonAt seq i
    if codon ∈ STOP_CODONS then
      some { pos := i, codon := codon, frame := i % 3 }
    else none)

/-! ## Probability model -/

/-- Source: calculateInitiationProbability. -/
def calculateInitiationProbability (startCodon : List Char) (kozakScore gcContent : ℚ)
    (params : RDGParams) : ℚ :=
  let fKozak := 0.5 + kozakScore * 0.5
  let fCodon := if startCodon = AUGc then 1 else params.nearCognatePenalty
  let fStructure := 1 + max 0 (gcContent - 0.5) * params.gcBonus
  let pStart := params.baseP * fKozak * fCodon * fStructure
  max 0.01 (min 0.99 pStart)

/-- Source: calculateReinitiationProbability; rexp stands for Math.exp. -/
def calculateReinitiationProbability (rexp : ℚ → ℚ) (uorfLength spacing : ℚ)
    (params : RDGParams) : ℚ :=
  let fLength := rexp (-uorfLength / params.lengthL0)
  let fSpacing := 1 - rexp (-spacing / params.spacingS0)
  let pReinit := params.reinitiationBase * fLength * fSpacing
  max 0.01 (min 0.95 pReinit)

/-- Source: calculateProteinMW — floor(orfNt / 3) amino acids at 110 Da each,
reported in kDa. -/
def calculateProteinMW (orfLengthNt : Nat) : ℚ :=
  (((orfLengthNt / 3) * 110 : ℕ) : ℚ) / 1000

/-! ## Flux propagator (computeTranslonFlux) -/

/-- Source: the probability computeTranslonFlux uses for a start — the
annotation's initiationProbability when it is not undefined, else the
probability computed from the start's features. -/
def startProb (params : RDGParams) (s : StartCodon) : ℚ :=
  match s.initiationProbability with
  | some q => q
  | none => calculateInitiationProbability s.codon s.kozakScore s.gcContent params

/-- Source: ascending-position comparator (a, b) => a.pos - b.pos. -/
def posLE (a b : StartCodon) : Bool := a.pos ≤ b.pos

/-- Source: the main loop of computeTranslonFlux, carrying the available flux
and the Map under construction across the sorted starts. -/
def computeRawFluxAux (rexp : ℚ → ℚ) (params : RDGParams) :
    List StartCodon → ℚ → List (Nat × ℚ) → List (Nat × ℚ)
  | [], _, flux => flux
  | s :: rest, available, flux =>
    let p := startProb params s
    let initiated := available * clampQ 0 1 p
    let flux2 := mapSet flux s.pos initiated
    let spacing : ℚ :=
      match rest with
      | [] => 0
      | next :: _ => max 0 ((next.pos : ℚ) - (s.stopPos : ℚ))
    let r := calculateReinitiationProbability rexp (s.orfLength : ℚ) spacing params
    let reinitFlux := initiated * r
    let available2 := clampQ 0 1 (available * (1 - p) + reinitFlux)
    computeRawFluxAux rexp params rest available2 flux2

/-- Source: computeTranslonFlux before normalization — sort the starts by
ascending position and run the accumulator loop from available = 1. -/
def computeRawFlux (rexp : ℚ → ℚ) (params : RDGParams) (starts : List StartCodon) :
    List (Nat × ℚ) :=
  computeRawFluxAux rexp params (insertionSortB posLE starts) 1 []

/-- Source: computeTranslonFlux — the raw flux map, normalized by its maximum
value when that maximum is positive, returned as-is otherwise. -/
def computeTranslonFlux (rexp : ℚ → ℚ) (params : RDGParams)
    (starts : List StartCodon) : List (Nat × ℚ) :=
  let flux := computeRawFlux rexp params starts
  let mx := mapMaxVal flux
  if 0 < mx then flux.map (fun e => (e.1, e.2 / mx)) else flux

/-! ## Specification-side definitions for the flux claims -/

/-- Claim side (from the wording of spec section 4.3): the available-flux
recurrence — initiated is available times P_init, spacing is
max(0, nextStart.pos - s.stopPos) and 0 for the last start, reinitFlux is
initiated times P_reinit(orfLength, spacing), and the next available flux is
clamp(available times (1 - P_init) plus reinitFlux, 0, 1). -/
def fluxSpecWalk (rexp : ℚ → ℚ) (params : RDGParams) :
    List StartCodon → ℚ → List (Nat × ℚ)
  | [], _ => []
  | s :: rest, available =>
    let initiated := available * startProb params s
    let spacing : ℚ :=
      match rest with
      | [] => 0
      | next :: _ => max 0 ((next.pos : ℚ) - (s.stopPos : ℚ))
    let reinitFlux :=
      initiated * calculateReinitiationProbability rexp (s.orfLength : ℚ) spacing params
    (s.pos, initiated) ::
      fluxSpecWalk rexp params rest
        (clampQ 0 1 (available * (1 - startProb params s) + reinitFlux))

/-! ## Feature identifier (identifyFeatures) -/

/-- The canonical CDS block identifyFeatures returns. -/
structure CanonicalCDS where
  start : Nat
  endPos : Nat
  frame : Nat
  startCodon : List Char
  initiationProbability : Option ℚ
deriving DecidableEq

/-- A UTR block (start, end). -/
structure UtrBlock where
  start : Nat
  endPos : Nat
deriving DecidableEq

/-- A uORF annotation as identifyFeatures builds it. -/
structure UorfAnn where
  start : Nat
  endPos : Nat
  frame : Nat
  startCodon : List Char
  kozakScore : ℚ
  initiationProbability : Option ℚ
  orfLength : Nat
deriving DecidableEq

/-- A reinitiation-site annotation as identifyFeatures builds it. -/
structure ReinitSite where
  donorStart : Nat
  donorStop : Nat
  acceptorStart : Nat
  spacing : ℤ
  donorORFLength : Nat
  probability : ℚ
deriving DecidableEq

structure CanonicalBlock where
  start : Option StartCodon
  cds : Option CanonicalCDS
  utr5 : Option UtrBlock
  utr3 : Option UtrBlock
deriving DecidableEq

structure PredictedBlock where
  startCodons : List StartCodon
  stopCodons : List StopCodonAnn
  uorfs : List UorfAnn
  reinitiationSites : List ReinitSite
deriving DecidableEq

structure FeatureSet where
  canonical : CanonicalBlock
  predicted : PredictedBlock
deriving DecidableEq

structure IdOptions where
  readthroughStops : Option (List RTStop) := none
  params : Option RDGParams := none

/-- The annotated initiation probability, read back as a number; it is set on
every annotation identifyFeatures produces, and the comparator below does
arithmetic with it. -/
def pVal (s : StartCodon) : ℚ := s.initiationProbability.getD 0

/-- Source: the canonical-start comparator — descending initiationProbability,
ties broken by descending orfLength (comparator(a, b) nonpositive). -/
def canonLE (a b : StartCodon) : Bool :=
  if pVal a == pVal b then b.orfLength ≤ a.orfLength else pVal b < pVal a

/-- Source: identifyFeatures. -/
def identifyFeatures (rexp : ℚ → ℚ) (seq : RnaSeq) (opts : IdOptions) : FeatureSet :=
  let params := opts.params.getD DEFAULT_RDG_PARAMS
  let rts := opts.readthroughStops.getD []
  let startCodons :=
    mapIdxFrom (fun idx s =>
      { s with
        index := some idx
        initiationProbability :=
          some (calculateInitiationProbability s.codon s.kozakScore s.gcContent params) })
      0 (findStartCodons seq rts)
  let stopCodons := findStopCodons seq
  let sortedStarts := insertionSortB posLE startCodons
  let canonicalStart : Option StartCodon :=
    match (insertionSortB canonLE (sortedStarts.filter (fun s => s.isAUG))).head? with
    | some s => some s
    | none => sortedStarts.head?
  let canonicalCDS : Option CanonicalCDS :=
    canonicalStart.map (fun cs =>
      { start := cs.pos, endPos := cs.stopPos, frame := cs.frame,
        startCodon := cs.codon, initiationProbability := cs.initiationProbability })
  let utr5 : Option UtrBlock := canonicalStart.map (fun cs => { start := 0, endPos := cs.pos })
  let utr3 : Option UtrBlock :=
    canonicalStart.map (fun cs => { start := cs.stopPos, endPos := seq.length })
  let uorfs : List UorfAnn :=
    match canonicalStart with
    | none => []
    | some cs =>
      (sortedStarts.filter (fun s => s.pos < cs.pos ∧ s.stopPos ≤ cs.pos)).map (fun s =>
        { start := s.pos, endPos := s.stopPos, frame := s.frame, startCodon := s.codon,
          kozakScore := s.kozakScore, initiationProbability := s.initiationProbability,
          orfLength := s.orfLength })
  let reinitiationSites : List ReinitSite :=
    (sortedStarts.zip sortedStarts.tail).filterMap (fun pr =>
      let previous := pr.1
      let current := pr.2
      let spacing : ℤ := (current.pos : ℤ) - (previous.stopPos : ℤ)
      if 0 ≤ spacing then
        let reinitProb :=
          calculateReinitiationProbability rexp (previous.orfLength : ℚ) (spacing : ℚ) params
        if 0.05 < reinitProb then
          some { donorStart := previous.pos, donorStop := previous.stopPos,
                 acceptorStart := current.pos, spacing := spacing,
                 donorORFLength := previous.orfLength, probability := reinitProb }
        else none
      else none)
  { canonical :=
      { start := canonicalStart, cds := canonicalCDS, utr5 := utr5, utr3 := utr3 }
    predicted :=
      { startCodons := sortedStarts, stopCodons := stopCodons, uorfs := uorfs,
        reinitiationSites := reinitiationSites } }

/-! ## Reporter library (REPORTER_PROTEINS, REPORTER_LIBRARY) -/

structure ReporterProtein where
  name : String
  mw : ℚ
deriving DecidableEq

def REPORTER_PROTEINS_RLUC : ReporterProtein := { name := "Renilla Luciferase", mw := 36 }

def REPORTER_PROTEINS_FLUC : ReporterProtein := { name := "Firefly Luciferase", mw := 61 }

def REPORTER_PROTEINS_GFP : ReporterProtein :=
  { name := "Green Fluorescent Protein", mw := 27 }

/-- Source: aaFromMw — Math.max(30, Math.round(mwKDa * 1000 / 110)); Math.round
of a nonnegative number is floor(x + 1/2), which is Mathlib round. -/
def aaFromMw (mwKDa : ℚ) : ℤ := max 30 (round (mwKDa * 1000 / 110))

/-- Source: the safeCodons palette of synthesizeORF (29 codons; near-cognate
starts and stop codons are deliberately absent). -/
def safeCodons : List (List Char) :=
  [['G', 'C', 'U'], ['G', 'C', 'C'], ['G', 'C', 'A'], ['G', 'C', 'G'],
   ['G', 'A', 'U'], ['G', 'A', 'C'],
   ['G', 'A', 'A'], ['G', 'A', 'G'],
   ['G', 'G', 'U'], ['G', 'G', 'C'], ['G', 'G', 'A'], ['G', 'G', 'G'],
   ['A', 'A', 'U'], ['A', 'A', 'C'],
   ['A', 'A', 'A'], ['A', 'A', 'G'],
   ['A', 'C', 'U'], ['A', 'C', 'C'], ['A', 'C', 'A'],
   ['C', 'A', 'U'], ['C', 'A', 'C'],
   ['U', 'A', 'U'], ['U', 'A', 'C'],
   ['U', 'G', 'U'], ['U', 'G', 'C'],
   ['C', 'C', 'U'], ['C', 'C', 'C'], ['C', 'C', 'A'], ['C', 'C', 'G']]

/-- Source: the body-building loop of synthesizeORF — n codons cycled from the
palette, concatenated. -/
def synthBody (n : Nat) : List Char :=
  ((List.range n).map (fun i => safeCodons.getD (i % safeCodons.length) [])).flatten

/-- Source: synthesizeORF — a leading AUG, max(0, aaLen - 1) body codons, a
trailing UAA. -/
def synthesizeORF (aaLen : ℤ) : List Char :=
  AUGc ++ synthBody (max 0 (aaLen - 1)).toNat ++ UAAc

/-- Source: the static REPORTER_LIBRARY object (the branch taken when no host
page supplies reporter CDS overrides: window is undefined in the model). -/
def REPORTER_LIBRARY_RLUC : List Char := synthesizeORF (aaFromMw REPORTER_PROTEINS_RLUC.mw)

def REPORTER_LIBRARY_FLUC : List Char := synthesizeORF (aaFromMw REPORTER_PROTEINS_FLUC.mw)

def REPORTER_LIBRARY_GFP : List Char := synthesizeORF (aaFromMw REPORTER_PROTEINS_GFP.mw)

/-- Number of amino acids a stop-terminated synthetic ORF encodes: its codons
minus the stop (the leading AUG codes the initial methionine). -/
def aaEncodedCount (orf : List Char) : Nat := orf.length / 3 - 1

/-! ## Translon builder (buildTranslons) -/

/-- A translon record exactly as makeTranslon builds it; classification keeps
the source's string values. -/
structure Translon where
  pathId : String
  name : String
  startNt : Nat
  endNt : Nat
  stopNt : Nat
  frame : Nat
  startCodon : List Char
  kozakScore : ℚ
  gcContent : ℚ
  isCanonicalStart : Bool
  isAUG : Bool
  classification : String
  predictedProteinSize : ℚ
  predictedProteinSizeKd : ℚ
  predictedAbundance : ℚ
  predictedLUC : ℚ
  probability : ℚ
  orfLength : Nat
  initiationProbability : ℚ
  sourceIndex : Option Nat
deriving DecidableEq

/-- The options object of buildTranslons. -/
structure BuildOptions where
  limit : Option ℤ := none
  startCodons : Option (List StartCodon) := none
  features : Option FeatureSet := none
  params : Option RDGParams := none
  ensureStarts : Option (List Nat) := none

/-- Source: params = options.params or the defaults. -/
def paramsOf (opts : BuildOptions) : RDGParams := opts.params.getD DEFAULT_RDG_PARAMS

/-- Source: featureData = options.features or identifyFeatures(sequence,
with the resolved params); the short-circuit of the JS fallback is the match. -/
def featureDataOf (rexp : ℚ → ℚ) (seq : RnaSeq) (opts : BuildOptions) : FeatureSet :=
  match opts.features with
  | some f => f
  | none => identifyFeatures rexp seq { readthroughStops := none, params := some (paramsOf opts) }

/-- Source: the start annotations buildTranslons works from — the supplied
startCodons when nonempty (each given a resolved initiationProbability and an
index), else the feature data's predicted start codons. -/
def startAnnotationsOf (rexp : ℚ → ℚ) (seq : RnaSeq) (opts : BuildOptions) :
    List StartCodon :=
  match opts.startCodons with
  | some l =>
    if 0 < l.length then
      mapIdxFrom (fun idx st =>
        { st with
          initiationProbability :=
            some (jsOrQ st.initiationProbability
              (calculateInitiationProbability st.codon st.kozakScore st.gcContent
                (paramsOf opts)))
          index := some (st.index.getD idx) })
        0 l
    else (featureDataOf rexp seq opts).predicted.startCodons
  | none => (featureDataOf rexp seq opts).predicted.startCodons

/-- Source: fluxByPos = computeTranslonFlux(startAnnotations, params). -/
def translonFluxOf (rexp : ℚ → ℚ) (seq : RnaSeq) (opts : BuildOptions) :
    List (Nat × ℚ) :=
  computeTranslonFlux rexp (paramsOf opts) (startAnnotationsOf rexp seq opts)

/-- Source: makeTranslon, with its closed-over context (params, canonical
start position, uORF start lookup, flux map) passed explicitly. -/
def makeTranslon (params : RDGParams) (canonicalStartPos : Option Nat)
    (uorfStarts : List Nat) (fluxByPos : List (Nat × ℚ)) (start : StartCodon)
    (idx : Nat) : Translon :=
  let initiationProbability :=
    jsOrQ start.initiationProbability
      (calculateInitiationProbability start.codon start.kozakScore start.gcContent params)
  let proteinSize := roundToFixed 2 (calculateProteinMW start.orfLength)
  let classification : String :=
    if canonicalStartPos = some start.pos then "canonical"
    else if start.pos ∈ uorfStarts then "uORF"
    else if canonicalStartPos.isSome ∧ canonicalStartPos.getD 0 > start.pos then "upstream"
    else "downstream"
  { pathId := tLabel (idx + 1)
    name := tLabel (idx + 1)
    startNt := start.pos
    endNt := start.stopPos
    stopNt := start.stopPos
    frame := start.frame
    startCodon := start.codon
    kozakScore := start.kozakScore
    gcContent := start.gcContent
    isCanonicalStart := classification = "canonical"
    isAUG := start.isAUG
    classification := classification
    predictedProteinSize := proteinSize
    predictedProteinSizeKd := proteinSize
    predictedAbundance := roundToFixed 4 (jsOrQ (mapGet fluxByPos start.pos) initiationProbability)
    predictedLUC := roundToFixed 4 (jsOrQ (mapGet fluxByPos start.pos) initiationProbability)
    probability := initiationProbability
    orfLength := start.orfLength
    initiationProbability := initiationProbability
    sourceIndex := start.index }

/-- Source: the ranking comparator — descending predictedAbundance, ties
broken by ascending startNt (comparator(a, b) nonpositive). -/
def translonLE (a b : Translon) : Bool :=
  if a.predictedAbundance == b.predictedAbundance then a.startNt ≤ b.startNt
  else b.predictedAbundance < a.predictedAbundance

/-- Source: makeTranslon with the context buildTranslons closes over — the
resolved params, the canonical start position, the uORF start lookup and the
flux map. -/
def makeTranslonOf (rexp : ℚ → ℚ) (seq : RnaSeq) (opts : BuildOptions) :
    StartCodon → Nat → Translon :=
  let featureData := featureDataOf rexp seq opts
  makeTranslon (paramsOf opts)
    (featureData.canonical.start.map (fun s => s.pos))
    (featureData.predicted.uorfs.map (fun u => u.start))
    (translonFluxOf rexp seq opts)

/-- Source: the full candidate list, translons = startAnnotations.map(
(start, idx) => makeTranslon(start, idx)). -/
def allTranslonsOf (rexp : ℚ → ℚ) (seq : RnaSeq) (opts : BuildOptions) : List Translon :=
  mapIdxFrom (fun idx s => makeTranslonOf rexp seq opts s idx) 0
    (startAnnotationsOf rexp seq opts)

/-- Source: limit resolution — options.limit when it is a number, else 12,
then the slice bound Math.max(0, limit). -/
def limitOf (opts : BuildOptions) : Nat := (max 0 (opts.limit.getD 12)).toNat

/-- Source: the ensureStarts forEach — append a translon built from the full
start-annotation set for each ensured position missing from the kept list. -/
def ensureFold (mk : StartCodon → Nat → Translon) (anns : List StartCodon)
    (allLen : Nat) (acc : List Translon) : List Nat → List Translon
  | [] => acc
  | pos :: rest =>
    let acc2 :=
      if acc.any (fun t => t.startNt == pos) then acc
      else
        match anns.find? (fun s => s.pos == pos) with
        | some s => acc ++ [mk s (allLen + 1)]
        | none => acc
    ensureFold mk anns allLen acc2 rest

/-- Source: the relabel forEach — the element at index idx gets name and
pathId T(idx+1); unfolded with an explicit first label number. -/
def relabelFrom : Nat → List Translon → List Translon
  | _, [] => []
  | k, t :: l => { t with pathId := tLabel k, name := tLabel k } :: relabelFrom (k + 1) l

/-- Source: buildTranslons — build all candidates, sort, truncate to the
limit, append missing ensured starts, relabel sequentially. -/
def buildTranslons (rexp : ℚ → ℚ) (seq : RnaSeq) (opts : BuildOptions) : List Translon :=
  let translons := allTranslonsOf rexp seq opts
  let sorted := insertionSortB translonLE translons
  let limited := sorted.take (limitOf opts)
  let withEnsured :=
    ensureFold (makeTranslonOf rexp seq opts) (startAnnotationsOf rexp seq opts)
      translons.length limited (opts.ensureStarts.getD [])
  relabelFrom 1 withEnsured

/-! ## Tree layout engine (calculateTreeLayout of the visualization module) -/

/-- A layout node; type keeps the source's string values (root, decision,
scanning, endpoint, end). -/
structure TreeNode where
  id : String
  x : Nat
  y : ℤ
  type : String
  translon : Option Translon := none
deriving DecidableEq

/-- A layout edge; fromId and toId are the source's from and to. -/
structure TreeEdge where
  fromId : String
  toId : String
  x1 : Nat
  y1 : ℤ
  x2 : Nat
  y2 : ℤ
  type : String
  translon : Option Translon := none
  readthroughStop : Option Nat := none
  readthroughProb : Option ℚ := none
deriving DecidableEq

structure TreeLayout where
  nodes : List TreeNode
  edges : List TreeEdge
deriving DecidableEq

/-- Source: ascending-startNt comparator (a, b) => a.startNt - b.startNt. -/
def translonPosLE (a b : Translon) : Bool := a.startNt ≤ b.startNt

/-- Source: getScanningYAtPosition — start from Y = 200 and add
branchSpacing/2 = 40 for each sorted translon whose startNt is at most xPos,
stopping at the first that is not (the loop breaks there). -/
def getScanningYAtPosition (sorted : List Translon) (xPos : Nat) : ℤ :=
  200 + 40 * ((sorted.takeWhile (fun t => t.startNt ≤ xPos)).length : ℤ)

/-- Source: the readthrough search inside calculateTreeLayout — the next
in-frame stop after the readthrough stop is found by the same stepping loop
as findStartCodons' stop search (findStopLoop), then included in the span. -/
def nextStopPosAfter (seq : RnaSeq) (rts : List RTStop) (rtPos : Nat) : Nat :=
  match findStopLoop seq rts (rtPos + 3) with
  | some j => j + 3
  | none => seq.length

/-- Source: the per-translon body of calculateTreeLayout, processing the
sorted translons in order while carrying the index, the current rail Y and
the previous rail node; returns the nodes and edges this loop pushes, with
the final Y and final rail node. -/
def layoutLoop (seq : RnaSeq) (rts : List RTStop) (sorted : List Translon) :
    List Translon → Nat → ℤ → TreeNode → List TreeNode × List TreeEdge × ℤ × TreeNode
  | [], _, currentY, prev => ([], [], currentY, prev)
  | t :: rest, index, currentY, prev =>
    let branchX := t.startNt
    let branchY := currentY
    let decisionNode : TreeNode :=
      { id := "decision_" ++ toString index, x := branchX, y := branchY, type := "decision" }
    let eIn : TreeEdge :=
      { fromId := prev.id, toId := decisionNode.id, x1 := prev.x, y1 := prev.y,
        x2 := branchX, y2 := branchY, type := "noncoding" }
    let rtHit :=
      rts.find? (fun rt => decide (t.startNt ≤ rt.pos) && decide (rt.pos < t.endNt)
        && rt.frame == t.frame)
    match rtHit with
    | some rt =>
      let nextStopPos := nextStopPosAfter seq rts rt.pos
      let translationY := branchY - 40
      let translationEndNode : TreeNode :=
        { id := t.name ++ "_end", x := nextStopPos, y := translationY,
          type := "endpoint", translon := some t }
      let eUp : TreeEdge :=
        { fromId := decisionNode.id, toId := translationEndNode.id, x1 := branchX,
          y1 := branchY, x2 := branchX, y2 := translationY, type := "vertical_branch" }
      let eBar : TreeEdge :=
        { fromId := decisionNode.id, toId := translationEndNode.id, x1 := branchX,
          y1 := translationY, x2 := nextStopPos, y2 := translationY,
          type := "translation", translon := some t,
          readthroughStop := some rt.pos, readthroughProb := some rt.probability }
      let scanningY := branchY + 40
      let scanningNode : TreeNode :=
        { id := "scanning_" ++ toString index, x := branchX, y := scanningY,
          type := "scanning" }
      let eDown : TreeEdge :=
        { fromId := decisionNode.id, toId := scanningNode.id, x1 := branchX,
          y1 := branchY, x2 := branchX, y2 := scanningY, type := "vertical_branch" }
      let firstStopPos := rt.pos + 3
      let eReinit1 : TreeEdge :=
        { fromId := t.name ++ "_first_stop", toId := t.name ++ "_first_stop_scan",
          x1 := firstStopPos, y1 := translationY, x2 := firstStopPos,
          y2 := getScanningYAtPosition sorted firstStopPos,
          type := "reinitiation", translon := some t }
      let eReinit2 : TreeEdge :=
        { fromId := translationEndNode.id, toId := t.name ++ "_extended_stop_scan",
          x1 := nextStopPos, y1 := translationY, x2 := nextStopPos,
          y2 := getScanningYAtPosition sorted nextStopPos,
          type := "reinitiation", translon := some t }
      let rest_ := layoutLoop seq rts sorted rest (index + 1) scanningY scanningNode
      (decisionNode :: translationEndNode :: scanningNode :: rest_.1,
       eIn :: eUp :: eBar :: eDown :: eReinit1 :: eReinit2 :: rest_.2.1,
       rest_.2.2.1, rest_.2.2.2)
    | none =>
      let translationY := branchY - 40
      let translationEndNode : TreeNode :=
        { id := t.name ++ "_end", x := t.endNt, y := translationY,
          type := "endpoint", translon := some t }
      let eUp : TreeEdge :=
        { fromId := decisionNode.id, toId := translationEndNode.id, x1 := branchX,
          y1 := branchY, x2 := branchX, y2 := translationY, type := "vertical_branch" }
      let eBar : TreeEdge :=
        { fromId := decisionNode.id, toId := translationEndNode.id, x1 := branchX,
          y1 := translationY, x2 := t.endNt, y2 := translationY,
          type := "translation", translon := some t }
      let scanningY := branchY + 40
      let scanningNode : TreeNode :=
        { id := "scanning_" ++ toString index, x := branchX, y := scanningY,
          type := "scanning" }
      let eDown : TreeEdge :=
        { fromId := decisionNode.id, toId := scanningNode.id, x1 := branchX,
          y1 := branchY, x2 := branchX, y2 := scanningY, type := "vertical_branch" }
      let eReinit : TreeEdge :=
        { fromId := translationEndNode.id, toId := scanningNode.id,
          x1 := t.endNt, y1 := translationY, x2 := t.endNt,
          y2 := getScanningYAtPosition sorted t.endNt,
          type := "reinitiation", translon := some t }
      let rest_ := layoutLoop seq rts sorted rest (index + 1) scanningY scanningNode
      (decisionNode :: translationEndNode :: scanningNode :: rest_.1,
       eIn :: eUp :: eBar :: eDown :: eReinit :: rest_.2.1,
       rest_.2.2.1, rest_.2.2.2)

/-- Source: calculateTreeLayout (frameshiftSites is accepted and unused by the
source's layout computation). -/
def calculateTreeLayout (translons : List Translon) (seq : RnaSeq)
    (rts : List RTStop) (frameshiftSites : List Nat) : TreeLayout :=
  let _ := frameshiftSites
  let rootNode : TreeNode := { id := "root", x := 0, y := 200, type := "root" }
  if translons.length = 0 then
    let endNode : TreeNode := { id := "end", x := seq.length, y := 200, type := "end" }
    { nodes := [rootNode, endNode]
      edges := [{ fromId := "root", toId := "end", x1 := 0, y1 := 200,
                  x2 := seq.length, y2 := 200, type := "noncoding" }] }
  else
    let sorted := insertionSortB translonPosLE translons
    let loop_ := layoutLoop seq rts sorted sorted 0 200 rootNode
    let endNode : TreeNode := { id := "end", x := seq.length, y := loop_.2.2.1, type := "end" }
    { nodes := rootNode :: (loop_.1 ++ [endNode])
      edges := loop_.2.1 ++ [{ fromId := loop_.2.2.2.id, toId := "end", x1 := loop_.2.2.2.x,
                               y1 := loop_.2.2.2.y, x2 := seq.length, y2 := loop_.2.2.1,
                               type := "noncoding" }] }

/-! ## Claim-side definitions (stated from the specification's wording, to be
compared with the source embeddings above) -/

/-- Claim side (C3): a candidate terminating stop for a start at startPos —
reached from startPos + 3 in steps of 3, holding a stop triplet, and not
listed in readthroughStops. -/
def specStopCandidate (seq : RnaSeq) (rts : List RTStop) (startPos j : Nat) : Bool :=
  decide (startPos + 3 ≤ j) && decide ((j - (startPos + 3)) % 3 = 0)
    && decide (codonAt seq j ∈ STOP_CODONS) && !rtHas rts j

/-- Claim side (C3): the position of the first candidate stop plus 3, or the
sequence length when there is none. -/
def specStopPos (seq : RnaSeq) (rts : List RTStop) (startPos : Nat) : Nat :=
  match ((List.range seq.length).filter (specStopCandidate seq rts startPos)).head? with
  | some j => j + 3
  | none => seq.length

/-- Claim side (C5): the closed-form initiation probability of spec 4.2. -/
def specInitiationProbability (codon : List Char) (kozakScore gcContent : ℚ)
    (params : RDGParams) : ℚ :=
  clampQ 0.01 0.99
    (params.baseP * (0.5 + 0.5 * kozakScore)
      * (if codon = AUGc then 1 else params.nearCognatePenalty)
      * (1 + max 0 (gcContent - 0.5) * params.gcBonus))

/-- Claim side (C9): how many translons start at or before x. -/
def countStartsLE (ts : List Translon) (x : Nat) : Nat :=
  ts.countP (fun t => t.startNt ≤ x)

/-- Claim side (C9): how many translons start strictly before x. -/
def countStartsLT (ts : List Translon) (x : Nat) : Nat :=
  ts.countP (fun t => t.startNt < x)

/-- Claim side (C6): present in the built list at this start position. -/
def containsStart (ts : List Translon) (pos : Nat) : Bool :=
  ts.any (fun t => t.startNt == pos)

/-- Claim side (C6): some annotation carries this position. -/
def annHasPos (l : List StartCodon) (pos : Nat) : Bool :=
  l.any (fun s => s.pos == pos)

/-! ## Concrete inputs used by witnesses and counterexamples -/

/-- The 18-nt scenario sequence of the spec (C7). -/
def gSeq : RnaSeq := ("GGGAUGGCUGCUUAAGGG").toList

/-- The AUG start record of the scenario sequence. -/
def gStart1 : StartCodon :=
  { pos := 3, codon := AUGc, frame := 0, isAUG := true, stopPos := 15,
    orfLength := 12, kozakScore := 1, gcContent := 7 / 12 }

/-- The near-cognate CUG start record of the scenario sequence. -/
def gStart2 : StartCodon :=
  { pos := 7, codon := ['C', 'U', 'G'], frame := 1, isAUG := false, stopPos := 18,
    orfLength := 11, kozakScore := 0, gcContent := 1 / 2 }

/-- A 17-nt sequence whose first in-frame stop (UAA at 6) is a readthrough
stop, with a later in-frame stop (UAG at 12). -/
def c3seq : RnaSeq := ("AUGAAAUAAAAAUAGGG").toList

def c3rts : List RTStop := [{ pos := 6, frame := 0, probability := 0.1 }]

/-- The AUG start of c3seq: its stop search skips the readthrough UAA at 6
and terminates at the UAG at 12, so stopPos is 15. -/
def c3sc : StartCodon :=
  { pos := 0, codon := AUGc, frame := 0, isAUG := true, stopPos := 15,
    orfLength := 15, kozakScore := 0, gcContent := 3 / 14 }

/-- A concrete stand-in for Math.exp (any rational function works: the flux
claims hold for every rexp). -/
def crexp : ℚ → ℚ := fun _ => 0.5

/-- A start annotation with a supplied initiation probability 0.75. -/
def cS1 : StartCodon :=
  { pos := 0, codon := AUGc, frame := 0, isAUG := true, stopPos := 9,
    orfLength := 9, kozakScore := 0, gcContent := 0, initiationProbability := some 0.75 }

/-- A start annotation with a supplied initiation probability 0.25. -/
def cS2 : StartCodon :=
  { pos := 30, codon := AUGc, frame := 0, isAUG := true, stopPos := 39,
    orfLength := 9, kozakScore := 0, gcContent := 0, initiationProbability := some 0.25 }

def cStarts : List StartCodon := [cS1, cS2]

/-- A feature set with nothing annotated (supplied to bypass recomputation). -/
def emptyFeatureSet : FeatureSet :=
  { canonical := { start := none, cds := none, utr5 := none, utr3 := none }
    predicted := { startCodons := [], stopCodons := [], uorfs := [], reinitiationSites := [] } }

/-- Options supplying the two concrete starts and an empty feature set. -/
def c10opts : BuildOptions :=
  { startCodons := some cStarts, features := some emptyFeatureSet }

/-- A translon carrying only the fields the tree layout reads (the numeric
modelling fields are inert zeros). -/
def mkSimpleTranslon (nm : String) (s e fr : Nat) : Translon :=
  { pathId := nm, name := nm, startNt := s, endNt := e, stopNt := e, frame := fr,
    startCodon := AUGc, kozakScore := 0, gcContent := 0, isCanonicalStart := false,
    isAUG := true, classification := "downstream", predictedProteinSize := 0,
    predictedProteinSizeKd := 0, predictedAbundance := 0, predictedLUC := 0,
    probability := 0, orfLength := e - s, initiationProbability := 0, sourceIndex := none }

def c9t1 : Translon := mkSimpleTranslon ("A") 0 9 0

def c9t2 : Translon := mkSimpleTranslon ("B") 9 15 0

/-- Two translons where the second starts exactly where the first one's ORF
ends: the rail offset at x = 9 counts both (startNt at most 9), not only the
strictly-before one. -/
def c9ts : List Translon := [c9t1, c9t2]

/-- The reinitiation edge the layout emits for the first translon of c9ts. -/
def c9edge : TreeEdge :=
  { fromId := "A_end", toId := "scanning_0", x1 := 9, y1 := 160, x2 := 9, y2 := 280,
    type := "reinitiation", translon := some c9t1 }

/-- Claim side (C3): the step condition of the stop search with an explicit
search base (the base is startPos + 3 in the claim). -/
def stepCand (seq : RnaSeq) (rts : List RTStop) (j0 j : Nat) : Bool :=
  decide (j0 ≤ j) && decide ((j - j0) % 3 = 0)
    && decide (codonAt seq j ∈ STOP_CODONS) && !rtHas rts j

/-- Claim side (C6): erase the display label fields (pathId, name) of a
translon, leaving every computed field untouched; used to compare builder
output with the sorted candidate list modulo the relabeling pass. -/
def unlabel (t : Translon) : Translon :=
  { t with pathId := "", name := "" }

/-! ## Scanner lemmas -/

theorem findStopLoopGo_congr (seq : RnaSeq) (rts : List RTStop) :
    ∀ f1 f2 j, seq.length ≤ j + 3 * f1 → seq.length ≤ j + 3 * f2 →
      findStopLoopGo seq rts f1 j = findStopLoopGo seq rts f2 j := by
  intro f1
  induction f1 with
  | zero =>
    intro f2 j h1 h2
    cases f2 with
    | zero => rfl
    | succ b =>
      simp only [findStopLoopGo]
      rw [if_neg (by omega)]
  | succ a ih =>
    intro f2 j h1 h2
    cases f2 with
    | zero =>
      simp only [findStopLoopGo]
      rw [if_neg (by omega)]
    | succ b =>
      simp only [findStopLoopGo]
      by_cases hlt : j < seq.length - 2
      · rw [if_pos hlt, if_pos hlt]
        by_cases hstop : codonAt seq j ∈ STOP_CODONS ∧ rtHas rts j = false
        · rw [if_pos hstop, if_pos hstop]
        · rw [if_neg hstop, if_neg hstop]
          exact ih b (j + 3) (by omega) (by omega)
      · rw [if_neg hlt, if_neg hlt]

theorem findStopLoop_unfold (seq : RnaSeq) (rts : List RTStop) (j : Nat) :
    findStopLoop seq rts j
      = if j < seq.length - 2 then
          (if codonAt seq j ∈ STOP_CODONS ∧ rtHas rts j = false then some j
           else findStopLoop seq rts (j + 3))
        else none := by
  unfold findStopLoop
  rcases Nat.eq_zero_or_pos seq.length with h0 | hpos
  · simp only [h0, findStopLoopGo]
    rw [if_neg (by omega)]
  · obtain ⟨k, hk⟩ : ∃ k, seq.length = k + 1 := ⟨seq.length - 1, by omega⟩
    conv_lhs => rw [hk]
    simp only [findStopLoopGo]
    by_cases hlt : j < seq.length - 2
    · rw [if_pos hlt, if_pos hlt]
      by_cases hstop : codonAt seq j ∈ STOP_CODONS ∧ rtHas rts j = false
      · rw [if_pos hstop, if_pos hstop]
      · rw [if_neg hstop, if_neg hstop]
        exact findStopLoopGo_congr seq rts k seq.length (j + 3) (by omega) (by omega)
    · rw [if_neg hlt, if_neg hlt]

theorem codonAt_short_not_stop (seq : RnaSeq) (j : Nat) (hj : seq.length - 2 ≤ j) :
    codonAt seq j ∉ STOP_CODONS := by
  intro hmem
  have hlen : (codonAt seq j).length ≤ 2 := by
    simp only [codonAt, List.length_take, List.length_drop]
    omega
  simp only [STOP_CODONS, List.mem_cons, List.not_mem_nil, or_false] at hmem
  rcases hmem with h | h | h <;> rw [h] at hlen <;> simp at hlen

theorem findStopLoop_props (seq : RnaSeq) (rts : List RTStop) :
    ∀ fuel j j', seq.length - j ≤ fuel → findStopLoop seq rts j = some j' →
      j ≤ j' ∧ j' < seq.length - 2 ∧ codonAt seq j' ∈ STOP_CODONS
        ∧ rtHas rts j' = false ∧ (j' - j) % 3 = 0 := by
  intro fuel
  induction fuel with
  | zero =>
    intro j j' hle h
    rw [findStopLoop_unfold, if_neg (by omega)] at h
    exact absurd h (by simp)
  | succ n ih =>
    intro j j' hle h
    rw [findStopLoop_unfold] at h
    by_cases hlt : j < seq.length - 2
    · rw [if_pos hlt] at h
      by_cases hs : codonAt seq j ∈ STOP_CODONS ∧ rtHas rts j = false
      · rw [if_pos hs] at h
        injection h with h
        subst h
        exact ⟨Nat.le_refl _, hlt, hs.1, hs.2, by omega⟩
      · rw [if_neg hs] at h
        obtain ⟨h1, h2, h3, h4, h5⟩ := ih (j + 3) j' (by omega) h
        exact ⟨by omega, h2, h3, h4, by omega⟩
    · rw [if_neg hlt] at h
      exact absurd h (by simp)

theorem findStopLoop_eq_first (seq : RnaSeq) (rts : List RTStop) :
    ∀ fuel j0, seq.length - j0 ≤ fuel →
      findStopLoop seq rts j0
        = ((List.range seq.length).filter (stepCand seq rts j0)).head? := by
  intro fuel
  induction fuel with
  | zero =>
    intro j0 hle
    have h1 : findStopLoop seq rts j0 = none := by
      rw [findStopLoop_unfold, if_neg (by omega)]
    rw [h1]
    symm
    rw [List.head?_eq_none_iff, List.filter_eq_nil_iff]
    intro j hj
    rw [List.mem_range] at hj
    simp only [stepCand, Bool.and_eq_true, decide_eq_true_eq, Bool.not_eq_true']
    intro hcontra
    omega
  | succ n ih =>
    intro j0 hle
    by_cases hlt : j0 < seq.length - 2
    · by_cases hs : codonAt seq j0 ∈ STOP_CODONS ∧ rtHas rts j0 = false
      · have hL : findStopLoop seq rts j0 = some j0 := by
          rw [findStopLoop_unfold, if_pos hlt, if_pos hs]
        rw [hL]
        have hsplit : List.range' 0 j0 ++ List.range' j0 (seq.length - j0)
            = List.range seq.length := by
          rw [List.range_eq_range']
          have h2 := List.range'_append_1 0 j0 (seq.length - j0)
          simp only [Nat.zero_add] at h2
          rw [h2, show seq.length - j0 + j0 = seq.length from by omega]
        rw [← hsplit, List.filter_append]
        have hnil : (List.range' 0 j0).filter (stepCand seq rts j0) = [] := by
          rw [List.filter_eq_nil_iff]
          intro j hj
          rw [List.mem_range'_1] at hj
          simp only [stepCand, Bool.and_eq_true, decide_eq_true_eq, Bool.not_eq_true']
          intro hcontra
          omega
        rw [hnil, List.nil_append]
        obtain ⟨k, hk⟩ : ∃ k, seq.length - j0 = k + 1 := ⟨seq.length - j0 - 1, by omega⟩
        rw [hk, List.range'_succ]
        have hcand : stepCand seq rts j0 j0 = true := by
          simp only [stepCand, Bool.and_eq_true, decide_eq_true_eq, Bool.not_eq_true']
          exact ⟨⟨⟨Nat.le_refl _, by omega⟩, hs.1⟩, hs.2⟩
        rw [List.filter_cons_of_pos hcand]
        simp
      · have hL : findStopLoop seq rts j0 = findStopLoop seq rts (j0 + 3) := by
          rw [findStopLoop_unfold, if_pos hlt, if_neg hs]
        rw [hL, ih (j0 + 3) (by omega)]
        congr 1
        apply List.filter_congr
        intro j hj
        rw [List.mem_range] at hj
        rcases Nat.lt_or_ge j (j0 + 3) with hj3 | hj3
        · rcases Nat.lt_or_ge j j0 with hj0 | hj0
          · simp only [stepCand]
            rw [decide_eq_false (by omega : ¬ j0 ≤ j),
              decide_eq_false (by omega : ¬ j0 + 3 ≤ j)]
            simp
          · rw [show stepCand seq rts (j0 + 3) j = false by
              simp only [stepCand]
              rw [decide_eq_false (by omega : ¬ j0 + 3 ≤ j)]
              simp]
            by_cases hjeq : j = j0
            · subst hjeq
              have hfail : (decide (codonAt seq j ∈ STOP_CODONS) && !rtHas rts j) = false := by
                by_cases hin : codonAt seq j ∈ STOP_CODONS
                · have : rtHas rts j = true := by
                    rcases Bool.eq_false_or_eq_true (rtHas rts j) with ht | hf
                    · exact ht
                    · exact absurd ⟨hin, hf⟩ hs
                  simp [this]
                · simp [hin]
              simp only [stepCand, Bool.and_assoc]
              rw [hfail]
              simp
            · simp only [stepCand]
              rw [decide_eq_false (by omega : ¬ (j - j0) % 3 = 0)]
              simp
        · simp only [stepCand]
          rw [decide_eq_true (by omega : j0 ≤ j), decide_eq_true (by omega : j0 + 3 ≤ j)]
          have hmod : ((j - j0) % 3 = 0) ↔ ((j - (j0 + 3)) % 3 = 0) := by omega
          rw [decide_eq_decide.mpr hmod]
    · have h1 : findStopLoop seq rts j0 = none := by
        rw [findStopLoop_unfold, if_neg hlt]
      rw [h1]
      symm
      rw [List.head?_eq_none_iff, List.filter_eq_nil_iff]
      intro j hj
      rw [List.mem_range] at hj
      simp only [stepCand, Bool.and_eq_true, decide_eq_true_eq, Bool.not_eq_true']
      intro hcontra
      exact absurd hcontra.1.2 (codonAt_short_not_stop seq j (by omega))

theorem stopPosFor_eq_spec (seq : RnaSeq) (rts : List RTStop) (p : Nat) :
    stopPosFor seq rts p = specStopPos seq rts p := by
  have hcand : specStopCandidate seq rts p = stepCand seq rts (p + 3) := rfl
  unfold stopPosFor specStopPos
  rw [hcand, ← findStopLoop_eq_first seq rts (seq.length) (p + 3) (by omega)]

theorem mem_findStartCodons {seq : RnaSeq} {rts : List RTStop} {sc : StartCodon}
    (h : sc ∈ findStartCodons seq rts) :
    ∃ i, i < seq.length - 2 ∧ codonAt seq i ∈ START_CODON_LIST ∧
      sc.pos = i ∧ sc.codon = codonAt seq i ∧ sc.frame = i % 3 ∧
      sc.stopPos = stopPosFor seq rts i ∧ sc.orfLength = stopPosFor seq rts i - i ∧
      sc.kozakScore = calculateKozakScore seq i ∧
      sc.gcContent = calculateDownstreamGC seq i := by
  simp only [findStartCodons, List.mem_filterMap, List.mem_range] at h
  obtain ⟨i, hi, hsome⟩ := h
  by_cases hc : codonAt seq i ∈ START_CODON_LIST
  · rw [if_pos hc] at hsome
    injection hsome with heq
    subst heq
    exact ⟨i, hi, hc, rfl, rfl, rfl, rfl, rfl, rfl, rfl⟩
  · rw [if_neg hc] at hsome
    exact absurd hsome (by simp)

/-! ## Claim C3 -/

/-- C3: for every start codon found by findStartCodons, stopPos equals the
specification's stop search (the first stop triplet reached from pos + 3 in
steps of 3 whose exact position is not a readthrough stop, plus 3, else the
sequence length), and the stop the loop finds is never a readthrough
position. -/
theorem c3_stop_search_spec (seq : RnaSeq) (rts : List RTStop) (sc : StartCodon)
    (h : sc ∈ findStartCodons seq rts) :
    sc.stopPos = specStopPos seq rts sc.pos
      ∧ ∀ j, findStopLoop seq rts (sc.pos + 3) = some j → rtHas rts j = false := by
  obtain ⟨i, hi, hc, hpos, hcodon, hframe, hstop, horf, hkoz, hgc⟩ := mem_findStartCodons h
  constructor
  · rw [hstop, hpos]
    exact stopPosFor_eq_spec seq rts i
  · intro j hj
    rw [hpos] at hj
    exact (findStopLoop_props seq rts seq.length (i + 3) j (by omega) hj).2.2.2.1

/-- C3 witness: on the concrete sequence whose first in-frame stop is a
readthrough stop, the found stopPos (15, past the readthrough UAA at 6)
matches the specification's search. -/
theorem c3_stop_search_spec_witness : c3sc.stopPos = specStopPos c3seq c3rts c3sc.pos :=
  (c3_stop_search_spec c3seq c3rts c3sc (by decide)).1

/-! ## Claim C4 -/

/-- C4: every record findStartCodons returns satisfies stopPos at least
pos + 3, stopPos at most the sequence length, and frame = pos mod 3. -/
theorem c4_startCodon_invariants (seq : RnaSeq) (rts : List RTStop) (sc : StartCodon)
    (h : sc ∈ findStartCodons seq rts) :
    sc.pos + 3 ≤ sc.stopPos ∧ sc.stopPos ≤ seq.length ∧ sc.frame = sc.pos % 3 := by
  obtain ⟨i, hi, hc, hpos, hcodon, hframe, hstop, horf, hkoz, hgc⟩ := mem_findStartCodons h
  rw [hpos, hframe, hstop]
  refine ⟨?_, ?_, rfl⟩ <;>
    (cases hfind : findStopLoop seq rts (i + 3) with
     | none =>
       simp only [stopPosFor, hfind]
       omega
     | some j =>
       obtain ⟨h1, h2, _, _, _⟩ :=
         findStopLoop_props seq rts seq.length (i + 3) j (by omega) hfind
       simp only [stopPosFor, hfind]
       omega)

/-- C4 witness: the invariants at the concrete start of c3seq. -/
theorem c4_startCodon_invariants_witness :
    c3sc.pos + 3 ≤ c3sc.stopPos ∧ c3sc.stopPos ≤ c3seq.length ∧ c3sc.frame = c3sc.pos % 3 :=
  c4_startCodon_invariants c3seq c3rts c3sc (by decide)

/-! ## Claim C5 -/

/-- C5: for all rational inputs and any parameter object, the computed
initiation probability equals the specification's clamped closed form, and
always lies within [0.01, 0.99]. -/
theorem c5_initiation_probability_spec (codon : List Char) (kozakScore gcContent : ℚ)
    (params : RDGParams) :
    calculateInitiationProbability codon kozakScore gcContent params
        = specInitiationProbability codon kozakScore gcContent params
      ∧ 0.01 ≤ calculateInitiationProbability codon kozakScore gcContent params
      ∧ calculateInitiationProbability codon kozakScore gcContent params ≤ 0.99 := by
  refine ⟨?_, le_max_left _ _, max_le (by norm_num) (min_le_left _ _)⟩
  simp only [calculateInitiationProbability, specInitiationProbability, clampQ]
  congr 2
  ring

/-! ## Claim C7 -/

/-- C7 counterexample: the scenario sequence does not yield exactly one start
codon (a near-cognate CUG at position 7 is found besides the AUG at 3). -/
theorem c7_counterexample : (findStartCodons gSeq []).length ≠ 1 := by decide

/-- C7 (amended): on the 18-nt scenario sequence findStartCodons returns
exactly two start codons — the AUG at pos 3, frame 0, whose stop search finds
the UAA at 12 so stopPos = 15 and orfLength = 12, and the near-cognate CUG at
pos 7, frame 1, with no in-frame stop, so stopPos = 18 and orfLength = 11. -/
theorem c7_scenario_two_starts : findStartCodons gSeq [] = [gStart1, gStart2] := by decide

/-! ## Reporter-library lemmas and claim C8 -/

theorem safeCodons_getD_length (k : Nat) :
    (safeCodons.getD (k % safeCodons.length) []).length = 3 := by
  have hall : ∀ j, j < safeCodons.length → (safeCodons.getD j []).length = 3 := by decide
  exact hall _ (Nat.mod_lt _ (by decide))

theorem safeCodons_getD_mem (k : Nat) :
    safeCodons.getD (k % safeCodons.length) [] ∈ safeCodons := by
  have hall : ∀ j, j < safeCodons.length → safeCodons.getD j [] ∈ safeCodons := by decide
  exact hall _ (Nat.mod_lt _ (by decide))

theorem synthBody_length (n : Nat) : (synthBody n).length = 3 * n := by
  induction n with
  | zero => rfl
  | succ m ih =>
    unfold synthBody at ih ⊢
    rw [List.range_succ, List.map_append, List.flatten_append, List.length_append, ih]
    simp only [List.map_cons, List.map_nil, List.flatten_cons, List.flatten_nil,
      List.append_nil, safeCodons_getD_length]
    omega

theorem synthBody_codons (n : Nat) :
    ∀ c ∈ (List.range n).map (fun i => safeCodons.getD (i % safeCodons.length) []),
      c ∈ safeCodons := by
  intro c hc
  rw [List.mem_map] at hc
  obtain ⟨i, _, rfl⟩ := hc
  exact safeCodons_getD_mem i

theorem aaEncodedCount_synthesizeORF (a : ℤ) (h : 1 ≤ a) :
    aaEncodedCount (synthesizeORF a) = a.toNat := by
  unfold aaEncodedCount synthesizeORF
  rw [List.length_append, List.length_append, synthBody_length]
  rw [max_eq_right (by omega : (0 : ℤ) ≤ a - 1)]
  have h2 : (a - 1).toNat = a.toNat - 1 := by omega
  have h3 : 1 ≤ a.toNat := by omega
  rw [h2]
  simp only [AUGc, UAAc, List.length_cons, List.length_nil]
  omega

theorem aaEncodedCount_FLUC : aaEncodedCount REPORTER_LIBRARY_FLUC = 555 := by
  unfold REPORTER_LIBRARY_FLUC
  rw [aaEncodedCount_synthesizeORF _ (by decide)]
  decide

theorem aaEncodedCount_RLUC : aaEncodedCount REPORTER_LIBRARY_RLUC = 327 := by
  unfold REPORTER_LIBRARY_RLUC
  rw [aaEncodedCount_synthesizeORF _ (by decide)]
  decide

theorem aaEncodedCount_GFP : aaEncodedCount REPORTER_LIBRARY_GFP = 245 := by
  unfold REPORTER_LIBRARY_GFP
  rw [aaEncodedCount_synthesizeORF _ (by decide)]
  decide

theorem synthesizeORF_decomp (a : ℤ) :
    ∃ body : List (List Char), synthesizeORF a = AUGc ++ body.flatten ++ UAAc
      ∧ ∀ c ∈ body, c ∈ safeCodons := by
  refine ⟨(List.range (max 0 (a - 1)).toNat).map
    (fun i => safeCodons.getD (i % safeCodons.length) []), rfl, synthBody_codons _⟩

/-- C8 counterexample: the FLUC reporter ORF does not encode
floor((61 kDa times 1000) / 110) = 554 amino acids (the code rounds, giving
555). -/
theorem c8_counterexample :
    aaEncodedCount REPORTER_LIBRARY_FLUC
      ≠ (⌊(REPORTER_PROTEINS_FLUC.mw * 1000) / 110⌋).toNat := by
  rw [aaEncodedCount_FLUC]
  decide

/-- C8 (amended): each synthetic reporter ORF encodes exactly
max(30, round(mw_kDa times 1000 / 110)) amino acids — Math.round, half up,
not floor — which is 327 for RLUC, 555 for FLUC and 245 for GFP; begins with
a leading AUG and ends with a trailing UAA; and its body is drawn from a
safe-codon palette containing no start codons (near-cognates included) and no
stop codons. -/
theorem c8_reporter_orfs :
    (aaEncodedCount REPORTER_LIBRARY_RLUC = (aaFromMw REPORTER_PROTEINS_RLUC.mw).toNat
        ∧ aaEncodedCount REPORTER_LIBRARY_FLUC = (aaFromMw REPORTER_PROTEINS_FLUC.mw).toNat
        ∧ aaEncodedCount REPORTER_LIBRARY_GFP = (aaFromMw REPORTER_PROTEINS_GFP.mw).toNat)
      ∧ (aaFromMw REPORTER_PROTEINS_RLUC.mw = round ((REPORTER_PROTEINS_RLUC.mw * 1000) / 110)
        ∧ aaFromMw REPORTER_PROTEINS_FLUC.mw = round ((REPORTER_PROTEINS_FLUC.mw * 1000) / 110)
        ∧ aaFromMw REPORTER_PROTEINS_GFP.mw = round ((REPORTER_PROTEINS_GFP.mw * 1000) / 110))
      ∧ (∃ body : List (List Char),
          REPORTER_LIBRARY_RLUC = AUGc ++ body.flatten ++ UAAc ∧ ∀ c ∈ body, c ∈ safeCodons)
      ∧ (∃ body : List (List Char),
          REPORTER_LIBRARY_FLUC = AUGc ++ body.flatten ++ UAAc ∧ ∀ c ∈ body, c ∈ safeCodons)
      ∧ (∃ body : List (List Char),
          REPORTER_LIBRARY_GFP = AUGc ++ body.flatten ++ UAAc ∧ ∀ c ∈ body, c ∈ safeCodons)
      ∧ (∀ c ∈ safeCodons, c ∉ START_CODON_LIST ∧ c ∉ STOP_CODONS) := by
  refine ⟨⟨?_, ?_, ?_⟩, ⟨by decide, by decide, by decide⟩,
    synthesizeORF_decomp _, synthesizeORF_decomp _, synthesizeORF_decomp _, by decide⟩
  · rw [aaEncodedCount_RLUC]; decide
  · rw [aaEncodedCount_FLUC]; decide
  · rw [aaEncodedCount_GFP]; decide

/-! ## Sorting lemmas -/

theorem perm_orderedInsertB (r : α → α → Bool) (a : α) (l : List α) :
    List.Perm (orderedInsertB r a l) (a :: l) := by
  induction l with
  | nil => exact List.Perm.refl _
  | cons b t ih =>
    unfold orderedInsertB
    by_cases h : r a b
    · rw [if_pos h]
    · rw [if_neg h]
      exact (ih.cons b).trans (List.Perm.swap a b t)

theorem perm_insertionSortB (r : α → α → Bool) (l : List α) :
    List.Perm (insertionSortB r l) l := by
  induction l with
  | nil => exact List.Perm.refl _
  | cons a t ih => exact (perm_orderedInsertB r a _).trans (ih.cons a)

theorem mem_insertionSortB {r : α → α → Bool} {l : List α} {x : α} :
    x ∈ insertionSortB r l ↔ x ∈ l :=
  (perm_insertionSortB r l).mem_iff

theorem length_insertionSortB (r : α → α → Bool) (l : List α) :
    (insertionSortB r l).length = l.length :=
  (perm_insertionSortB r l).length_eq

theorem pairwise_orderedInsertB (r : α → α → Bool)
    (htot : ∀ x y, r x y = true ∨ r y x = true)
    (htrans : ∀ x y z, r x y = true → r y z = true → r x z = true)
    (a : α) (l : List α) (hl : l.Pairwise (fun x y => r x y = true)) :
    (orderedInsertB r a l).Pairwise (fun x y => r x y = true) := by
  induction l with
  | nil => simp [orderedInsertB]
  | cons b t ih =>
    rw [List.pairwise_cons] at hl
    obtain ⟨hb, ht⟩ := hl
    unfold orderedInsertB
    by_cases h : r a b
    · rw [if_pos h]
      refine List.Pairwise.cons ?_ (List.Pairwise.cons hb ht)
      intro c hc
      rcases List.mem_cons.mp hc with rfl | hc
      · exact h
      · exact htrans a b c h (hb c hc)
    · rw [if_neg h]
      have hba : r b a = true := by
        rcases htot a b with hab | hba
        · exact absurd hab h
        · exact hba
      refine List.Pairwise.cons ?_ (ih ht)
      intro c hc
      rcases List.mem_cons.mp ((perm_orderedInsertB r a t).mem_iff.mp hc) with rfl | hc2
      · exact hba
      · exact hb c hc2

theorem pairwise_insertionSortB (r : α → α → Bool)
    (htot : ∀ x y, r x y = true ∨ r y x = true)
    (htrans : ∀ x y z, r x y = true → r y z = true → r x z = true)
    (l : List α) :
    (insertionSortB r l).Pairwise (fun x y => r x y = true) := by
  induction l with
  | nil => exact List.Pairwise.nil
  | cons a t ih => exact pairwise_orderedInsertB r htot htrans a _ ih

theorem takeWhile_eq_filter_of_sorted {R : α → α → Prop} (p : α → Bool) :
    ∀ l : List α, l.Pairwise R → (∀ a b, R a b → p b = true → p a = true) →
      l.takeWhile p = l.filter p := by
  intro l
  induction l with
  | nil => intro _ _; rfl
  | cons a t ih =>
    intro hl hdc
    rw [List.pairwise_cons] at hl
    obtain ⟨ha, ht⟩ := hl
    by_cases h : p a
    · rw [List.takeWhile_cons_of_pos h, List.filter_cons_of_pos h, ih ht hdc]
    · rw [List.takeWhile_cons_of_neg h, List.filter_cons_of_neg h]
      symm
      rw [List.filter_eq_nil_iff]
      intro b hb hpb
      exact h (hdc a b (ha b hb) hpb)

/-! ## Fold lemmas for the flux maximum -/

theorem foldMax_ge_acc :
    ∀ (m : List (Nat × ℚ)) (acc : ℚ),
      acc ≤ m.foldl (fun acc e => if acc < e.2 then e.2 else acc) acc := by
  intro m
  induction m with
  | nil => intro acc; exact le_refl _
  | cons e t ih =>
    intro acc
    refine le_trans ?_ (ih (if acc < e.2 then e.2 else acc))
    by_cases h : acc < e.2
    · rw [if_pos h]; exact le_of_lt h
    · rw [if_neg h]

theorem foldMax_ge_mem :
    ∀ (m : List (Nat × ℚ)) (acc : ℚ) (e : Nat × ℚ), e ∈ m →
      e.2 ≤ m.foldl (fun acc e => if acc < e.2 then e.2 else acc) acc := by
  intro m
  induction m with
  | nil => intro acc e he; exact absurd he (List.not_mem_nil e)
  | cons b t ih =>
    intro acc e he
    rcases List.mem_cons.mp he with rfl | he2
    · refine le_trans ?_ (foldMax_ge_acc t (if acc < e.2 then e.2 else acc))
      by_cases h : acc < e.2
      · rw [if_pos h]
      · rw [if_neg h]; exact le_of_not_lt h
    · exact ih _ e he2

theorem foldMax_attained :
    ∀ (m : List (Nat × ℚ)) (acc : ℚ),
      m.foldl (fun acc e => if acc < e.2 then e.2 else acc) acc = acc
        ∨ ∃ e ∈ m, m.foldl (fun acc e => if acc < e.2 then e.2 else acc) acc = e.2 := by
  intro m
  induction m with
  | nil => intro acc; exact Or.inl rfl
  | cons b t ih =>
    intro acc
    simp only [List.foldl_cons]
    rcases ih (if acc < b.2 then b.2 else acc) with h | ⟨e, he, hfe⟩
    · by_cases hb : acc < b.2
      · rw [if_pos hb] at h ⊢
        exact Or.inr ⟨b, List.mem_cons_self b t, h⟩
      · rw [if_neg hb] at h ⊢
        exact Or.inl h
    · exact Or.inr ⟨e, List.mem_cons_of_mem b he, hfe⟩

theorem foldMax_le :
    ∀ (m : List (Nat × ℚ)) (acc c : ℚ), acc ≤ c → (∀ e ∈ m, e.2 ≤ c) →
      m.foldl (fun acc e => if acc < e.2 then e.2 else acc) acc ≤ c := by
  intro m
  induction m with
  | nil => intro acc c hac _; exact hac
  | cons b t ih =>
    intro acc c hac hall
    simp only [List.foldl_cons]
    refine ih _ c ?_ (fun e he => hall e (List.mem_cons_of_mem b he))
    by_cases h : acc < b.2
    · rw [if_pos h]; exact hall b (List.mem_cons_self b t)
    · rw [if_neg h]; exact hac

/-! ## Flux lemmas and claims C1, C2 -/

theorem clampQ01_nonneg (x : ℚ) : 0 ≤ clampQ 0 1 x := le_max_left _ _

theorem clampQ01_le_one (x : ℚ) : clampQ 0 1 x ≤ 1 :=
  max_le (by norm_num) (min_le_left _ _)

theorem clampQ01_eq_self {x : ℚ} (h0 : 0 ≤ x) (h1 : x ≤ 1) : clampQ 0 1 x = x := by
  unfold clampQ
  rw [min_eq_right h1, max_eq_right h0]

theorem clampQ01_pos {x : ℚ} (h : 0 < x) : 0 < clampQ 0 1 x := by
  unfold clampQ
  rcases le_or_lt x 1 with h1 | h1
  · rw [min_eq_right h1]; exact lt_max_of_lt_right h
  · rw [min_eq_left (le_of_lt h1)]; norm_num

theorem mapSet_append (m : List (Nat × ℚ)) (k : Nat) (v : ℚ)
    (h : ∀ e ∈ m, e.1 ≠ k) : mapSet m k v = m ++ [(k, v)] := by
  unfold mapSet
  rw [if_neg]
  intro hany
  rw [List.any_eq_true] at hany
  obtain ⟨e, he, hek⟩ := hany
  exact h e he (by simpa using hek)

theorem mapSet_forall {P : ℚ → Prop} {m : List (Nat × ℚ)} {k : Nat} {v : ℚ}
    (hm : ∀ e ∈ m, P e.2) (hv : P v) : ∀ e ∈ mapSet m k v, P e.2 := by
  intro e he
  unfold mapSet at he
  by_cases hany : m.any (fun e => e.1 == k)
  · rw [if_pos hany] at he
    rw [List.mem_map] at he
    obtain ⟨e', he', rfl⟩ := he
    by_cases hk : e'.1 == k
    · rw [if_pos hk]; exact hv
    · rw [if_neg hk]; exact hm e' he'
  · rw [if_neg hany] at he
    rcases List.mem_append.mp he with he2 | he2
    · exact hm e he2
    · rw [List.mem_singleton] at he2
      subst he2
      exact hv

theorem computeRawFluxAux_spec (rexp : ℚ → ℚ) (params : RDGParams) :
    ∀ (l : List StartCodon) (available : ℚ) (acc : List (Nat × ℚ)),
      (∀ s ∈ l, 0 ≤ startProb params s ∧ startProb params s ≤ 1) →
      (∀ s ∈ l, ∀ e ∈ acc, e.1 ≠ s.pos) →
      (l.map (fun s => s.pos)).Nodup →
      computeRawFluxAux rexp params l available acc
        = acc ++ fluxSpecWalk rexp params l available := by
  intro l
  induction l with
  | nil =>
    intro available acc _ _ _
    simp [computeRawFluxAux, fluxSpecWalk]
  | cons s rest ih =>
    intro available acc hp hfresh hnodup
    simp only [computeRawFluxAux, fluxSpecWalk]
    have hps := hp s (List.mem_cons_self s rest)
    rw [clampQ01_eq_self hps.1 hps.2]
    rw [mapSet_append acc s.pos _ (fun e he => hfresh s (List.mem_cons_self s rest) e he)]
    rw [List.map_cons, List.nodup_cons] at hnodup
    rw [ih _ _
      (fun s' hs' => hp s' (List.mem_cons_of_mem s hs'))
      (fun s' hs' e he => by
        rcases List.mem_append.mp he with he2 | he2
        · exact hfresh s' (List.mem_cons_of_mem s hs') e he2
        · rw [List.mem_singleton] at he2
          subst he2
          intro hcontra
          have hpp : s.pos = s'.pos := hcontra
          exact hnodup.1 (by rw [hpp]; exact List.mem_map_of_mem (fun s => s.pos) hs'))
      hnodup.2]
    simp

theorem fluxSpecWalk_nonneg (rexp : ℚ → ℚ) (params : RDGParams) :
    ∀ (l : List StartCodon) (available : ℚ), 0 ≤ available →
      (∀ s ∈ l, 0 ≤ startProb params s) →
      ∀ e ∈ fluxSpecWalk rexp params l available, 0 ≤ e.2 := by
  intro l
  induction l with
  | nil => intro available _ _ e he; exact absurd he (List.not_mem_nil e)
  | cons s rest ih =>
    intro available hav hp e he
    simp only [fluxSpecWalk] at he
    rcases List.mem_cons.mp he with rfl | he2
    · exact mul_nonneg hav (hp s (List.mem_cons_self s rest))
    · exact ih _ (clampQ01_nonneg _)
        (fun s' hs' => hp s' (List.mem_cons_of_mem s hs')) e he2

theorem fluxSpecWalk_pos (rexp : ℚ → ℚ) (params : RDGParams) :
    ∀ (l : List StartCodon) (available : ℚ), 0 < available → available ≤ 1 →
      (∀ s ∈ l, 0 ≤ startProb params s ∧ startProb params s ≤ 1) →
      (∃ s ∈ l, 0 < startProb params s) →
      ∃ e ∈ fluxSpecWalk rexp params l available, 0 < e.2 := by
  intro l
  induction l with
  | nil =>
    intro available _ _ _ hex
    obtain ⟨s, hs, _⟩ := hex
    exact absurd hs (List.not_mem_nil s)
  | cons s rest ih =>
    intro available hav hav1 hp hex
    by_cases hpos : 0 < startProb params s
    · exact ⟨(s.pos, available * startProb params s),
        by simp [fluxSpecWalk], mul_pos hav hpos⟩
    · have hps := hp s (List.mem_cons_self s rest)
      have hzero : startProb params s = 0 := le_antisymm (le_of_not_lt hpos) hps.1
      have hex2 : ∃ s' ∈ rest, 0 < startProb params s' := by
        obtain ⟨s', hs', hp'⟩ := hex
        rcases List.mem_cons.mp hs' with rfl | hmem
        · exact absurd hp' hpos
        · exact ⟨s', hmem, hp'⟩
      simp only [fluxSpecWalk]
      rw [hzero]
      have hsimp : ∀ r : ℚ, available * (1 - 0) + available * 0 * r = available := by
        intro r
        ring
      rw [hsimp, clampQ01_eq_self (le_of_lt hav) hav1]
      obtain ⟨e, he, hpe⟩ := ih available hav hav1
        (fun s' hs' => hp s' (List.mem_cons_of_mem s hs')) hex2
      exact ⟨e, List.mem_cons_of_mem _ he, hpe⟩

theorem posLE_total (a b : StartCodon) : posLE a b = true ∨ posLE b a = true := by
  simp only [posLE, decide_eq_true_eq]
  omega

theorem posLE_trans (a b c : StartCodon) :
    posLE a b = true → posLE b c = true → posLE a c = true := by
  simp only [posLE, decide_eq_true_eq]
  omega

/-- C1: computeTranslonFlux's raw-abundance loop processes the starts in
ascending position order and realizes exactly the specification's
available-flux recurrence started at 1.0 (initiated = available times
P_init, spacing = max(0, nextStart.pos - stopPos) and 0 for the last start,
reinitFlux = initiated times P_reinit(orfLength, spacing), and available
updated to clamp(available times (1 - P_init) + reinitFlux, 0, 1)), provided
each start's probability is a genuine probability in [0, 1] and the start
positions are distinct. -/
theorem c1_flux_recurrence (rexp : ℚ → ℚ) (params : RDGParams)
    (starts : List StartCodon)
    (hp : ∀ s ∈ starts, 0 ≤ startProb params s ∧ startProb params s ≤ 1)
    (hnodup : (starts.map (fun s => s.pos)).Nodup) :
    computeRawFlux rexp params starts
        = fluxSpecWalk rexp params (insertionSortB posLE starts) 1
      ∧ List.Pairwise (fun a b => a.pos ≤ b.pos) (insertionSortB posLE starts) := by
  constructor
  · unfold computeRawFlux
    have hsortnodup : ((insertionSortB posLE starts).map (fun s => s.pos)).Nodup :=
      (((perm_insertionSortB posLE starts).map (fun s => s.pos)).nodup_iff).mpr hnodup
    have h := computeRawFluxAux_spec rexp params (insertionSortB posLE starts) 1 []
      (fun s hs => hp s (mem_insertionSortB.mp hs))
      (fun s _ e he => absurd he (List.not_mem_nil e))
      hsortnodup
    simpa using h
  · exact (pairwise_insertionSortB posLE posLE_total posLE_trans starts).imp
      (fun h => by simpa [posLE, decide_eq_true_eq] using h)

/-- C1 witness: the recurrence at the two concrete starts. -/
theorem c1_flux_recurrence_witness :
    computeRawFlux crexp DEFAULT_RDG_PARAMS cStarts
        = fluxSpecWalk crexp DEFAULT_RDG_PARAMS (insertionSortB posLE cStarts) 1
      ∧ List.Pairwise (fun a b => a.pos ≤ b.pos) (insertionSortB posLE cStarts) :=
  c1_flux_recurrence crexp DEFAULT_RDG_PARAMS cStarts (by decide) (by decide)

/-- C2: under the same well-formedness of the input starts, the map returned
by computeTranslonFlux has maximum value exactly 1.0 whenever some start has
nonzero (positive) initiation probability; and when every raw abundance is 0
the map is returned unnormalized, with every value 0. -/
theorem c2_flux_max_one (rexp : ℚ → ℚ) (params : RDGParams)
    (starts : List StartCodon)
    (hp : ∀ s ∈ starts, 0 ≤ startProb params s ∧ startProb params s ≤ 1)
    (hnodup : (starts.map (fun s => s.pos)).Nodup) :
    ((∃ s ∈ starts, 0 < startProb params s) →
        mapMaxVal (computeTranslonFlux rexp params starts) = 1)
      ∧ (mapMaxVal (computeRawFlux rexp params starts) = 0 →
          computeTranslonFlux rexp params starts = computeRawFlux rexp params starts
            ∧ ∀ e ∈ computeTranslonFlux rexp params starts, e.2 = 0) := by
  have hsorthp : ∀ s ∈ insertionSortB posLE starts,
      0 ≤ startProb params s ∧ startProb params s ≤ 1 :=
    fun s hs => hp s (mem_insertionSortB.mp hs)
  have hsortnodup : ((insertionSortB posLE starts).map (fun s => s.pos)).Nodup :=
    (((perm_insertionSortB posLE starts).map (fun s => s.pos)).nodup_iff).mpr hnodup
  have hraw : computeRawFlux rexp params starts
      = fluxSpecWalk rexp params (insertionSortB posLE starts) 1 := by
    unfold computeRawFlux
    have h := computeRawFluxAux_spec rexp params (insertionSortB posLE starts) 1 []
      hsorthp (fun s _ e he => absurd he (List.not_mem_nil e)) hsortnodup
    simpa using h
  have hnn : ∀ e ∈ computeRawFlux rexp params starts, 0 ≤ e.2 := by
    rw [hraw]
    exact fluxSpecWalk_nonneg rexp params _ 1 (by norm_num) (fun s hs => (hsorthp s hs).1)
  constructor
  · intro hex
    have hexpos : ∃ e ∈ computeRawFlux rexp params starts, 0 < e.2 := by
      rw [hraw]
      refine fluxSpecWalk_pos rexp params _ 1 (by norm_num) (by norm_num) hsorthp ?_
      obtain ⟨s, hs, hps⟩ := hex
      exact ⟨s, mem_insertionSortB.mpr hs, hps⟩
    obtain ⟨e0, he0, hpos0⟩ := hexpos
    have hmxpos : 0 < mapMaxVal (computeRawFlux rexp params starts) :=
      lt_of_lt_of_le hpos0 (foldMax_ge_mem _ 0 e0 he0)
    have hattained : ∃ e ∈ computeRawFlux rexp params starts,
        mapMaxVal (computeRawFlux rexp params starts) = e.2 := by
      rcases foldMax_attained (computeRawFlux rexp params starts) 0 with h | h
      · rw [mapMaxVal] at hmxpos
        rw [h] at hmxpos
        exact absurd hmxpos (by norm_num)
      · exact h
    unfold computeTranslonFlux
    rw [if_pos hmxpos]
    refine le_antisymm ?_ ?_
    · refine foldMax_le _ 0 1 (by norm_num) ?_
      intro e he
      rw [List.mem_map] at he
      obtain ⟨e', he', rfl⟩ := he
      exact div_le_one_of_le₀ (foldMax_ge_mem _ 0 e' he') (le_of_lt hmxpos)
    · obtain ⟨e, he, hme⟩ := hattained
      have hone : (e.1, e.2 / mapMaxVal (computeRawFlux rexp params starts))
          ∈ (computeRawFlux rexp params starts).map
            (fun e => (e.1, e.2 / mapMaxVal (computeRawFlux rexp params starts))) :=
        List.mem_map_of_mem _ he
      have hdiv : e.2 / mapMaxVal (computeRawFlux rexp params starts) = 1 := by
        rw [← hme]
        exact div_self (ne_of_gt hmxpos)
      have := foldMax_ge_mem ((computeRawFlux rexp params starts).map
        (fun e => (e.1, e.2 / mapMaxVal (computeRawFlux rexp params starts)))) 0 _ hone
      rw [hdiv] at this
      exact this
  · intro h0
    have hnotpos : ¬ 0 < mapMaxVal (computeRawFlux rexp params starts) := by
      rw [h0]
      norm_num
    constructor
    · unfold computeTranslonFlux
      rw [if_neg hnotpos]
    · unfold computeTranslonFlux
      rw [if_neg hnotpos]
      intro e he
      refine le_antisymm ?_ (hnn e he)
      calc e.2 ≤ mapMaxVal (computeRawFlux rexp params starts) := foldMax_ge_mem _ 0 e he
        _ = 0 := h0

/-- C2 witness: the normalized maximum at the two concrete starts. -/
theorem c2_flux_max_one_witness :
    mapMaxVal (computeTranslonFlux crexp DEFAULT_RDG_PARAMS cStarts) = 1 :=
  (c2_flux_max_one crexp DEFAULT_RDG_PARAMS cStarts (by decide) (by decide)).1 (by decide)

/-! ## Tree-layout lemmas and claim C9 -/

theorem translonPosLE_total (a b : Translon) :
    translonPosLE a b = true ∨ translonPosLE b a = true := by
  simp only [translonPosLE, decide_eq_true_eq]
  omega

theorem translonPosLE_trans (a b c : Translon) :
    translonPosLE a b = true → translonPosLE b c = true → translonPosLE a c = true := by
  simp only [translonPosLE, decide_eq_true_eq]
  omega

theorem getScanningY_eq_countLE (ts : List Translon) (x : Nat) :
    getScanningYAtPosition (insertionSortB translonPosLE ts) x
      = 200 + 40 * (countStartsLE ts x : ℤ) := by
  unfold getScanningYAtPosition countStartsLE
  rw [takeWhile_eq_filter_of_sorted (fun t => t.startNt ≤ x) _
    (pairwise_insertionSortB translonPosLE translonPosLE_total translonPosLE_trans ts)
    (fun a b hab hbx => by
      simp only [translonPosLE, decide_eq_true_eq] at hab hbx ⊢
      omega)]
  rw [← List.countP_eq_length_filter]
  rw [(perm_insertionSortB translonPosLE ts).countP_eq]

theorem layoutLoop_reinit_edges (seq : RnaSeq) (rts : List RTStop)
    (sorted : List Translon) :
    ∀ (l : List Translon) (index : Nat) (currentY : ℤ) (prev : TreeNode),
      ∀ e ∈ (layoutLoop seq rts sorted l index currentY prev).2.1,
        e.type = "reinitiation" → e.y2 = getScanningYAtPosition sorted e.x2 := by
  intro l
  induction l with
  | nil =>
    intro index currentY prev e he
    simp [layoutLoop] at he
  | cons t rest ih =>
    intro index currentY prev e he hre
    simp only [layoutLoop] at he
    cases hrt : rts.find? (fun rt => decide (t.startNt ≤ rt.pos)
        && decide (rt.pos < t.endNt) && rt.frame == t.frame) with
    | some rt =>
      rw [hrt] at he
      simp only [List.mem_cons] at he
      rcases he with rfl | rfl | rfl | rfl | rfl | rfl | he
      · simp at hre
      · simp at hre
      · simp at hre
      · simp at hre
      · rfl
      · rfl
      · exact ih _ _ _ e he hre
    | none =>
      rw [hrt] at he
      simp only [List.mem_cons] at he
      rcases he with rfl | rfl | rfl | rfl | rfl | he
      · simp at hre
      · simp at hre
      · simp at hre
      · simp at hre
      · rfl
      · exact ih _ _ _ e he hre

theorem layoutLoop_scanning_nodes (seq : RnaSeq) (rts : List RTStop)
    (sorted : List Translon) :
    ∀ (l : List Translon) (index : Nat) (currentY : ℤ) (prev : TreeNode),
      currentY = 200 + 40 * (index : ℤ) →
      ∀ k, k < l.length →
        ∃ n, (layoutLoop seq rts sorted l index currentY prev).1.get? (3 * k + 2) = some n
          ∧ n.type = "scanning" ∧ n.y = 200 + 40 * ((index : ℤ) + (k : ℤ) + 1) := by
  intro l
  induction l with
  | nil =>
    intro index currentY prev _ k hk
    exact absurd hk (by simp)
  | cons t rest ih =>
    intro index currentY prev hY k hk
    simp only [layoutLoop]
    cases hrt : rts.find? (fun rt => decide (t.startNt ≤ rt.pos)
        && decide (rt.pos < t.endNt) && rt.frame == t.frame) with
    | some rt =>
      cases k with
      | zero =>
        refine ⟨_, rfl, rfl, ?_⟩
        simp only [hY]
        push_cast
        ring
      | succ k' =>
        have hidx : 3 * (k' + 1) + 2 = (3 * k' + 2) + 1 + 1 + 1 := by ring
        rw [hidx, List.get?_cons_succ, List.get?_cons_succ, List.get?_cons_succ]
        obtain ⟨n, hget, htype, hny⟩ := ih (index + 1) (currentY + 40) _
          (by rw [hY]; push_cast; ring) k' (by simpa using hk)
        refine ⟨n, hget, htype, ?_⟩
        rw [hny]
        push_cast
        ring
    | none =>
      cases k with
      | zero =>
        refine ⟨_, rfl, rfl, ?_⟩
        simp only [hY]
        push_cast
        ring
      | succ k' =>
        have hidx : 3 * (k' + 1) + 2 = (3 * k' + 2) + 1 + 1 + 1 := by ring
        rw [hidx, List.get?_cons_succ, List.get?_cons_succ, List.get?_cons_succ]
        obtain ⟨n, hget, htype, hny⟩ := ih (index + 1) (currentY + 40) _
          (by rw [hY]; push_cast; ring) k' (by simpa using hk)
        refine ⟨n, hget, htype, ?_⟩
        rw [hny]
        push_cast
        ring

theorem layoutLoop_nodes_length (seq : RnaSeq) (rts : List RTStop)
    (sorted : List Translon) :
    ∀ (l : List Translon) (index : Nat) (currentY : ℤ) (prev : TreeNode),
      (layoutLoop seq rts sorted l index currentY prev).1.length = 3 * l.length := by
  intro l
  induction l with
  | nil => intro index currentY prev; rfl
  | cons t rest ih =>
    intro index currentY prev
    simp only [layoutLoop]
    cases hrt : rts.find? (fun rt => decide (t.startNt ≤ rt.pos)
        && decide (rt.pos < t.endNt) && rt.frame == t.frame) with
    | some rt =>
      simp only [List.length_cons, ih]
      ring
    | none =>
      simp only [List.length_cons, ih]
      ring

/-- C9 counterexample: with a translon starting exactly at the previous
translon's ORF end (position 9), the reinitiation edge dropping at x = 9
lands at rail Y 280, not at 200 plus one row offset per translon start
strictly before 9 (which would be 240): the rail counts starts at-or-before
the X coordinate. -/
theorem c9_counterexample :
    ¬ (∀ e ∈ (calculateTreeLayout c9ts gSeq [] []).edges, e.type = "reinitiation" →
        e.y2 = 200 + 40 * (countStartsLT c9ts e.x2 : ℤ)) := by decide

/-- C9 (amended): in calculateTreeLayout, the lower endpoint of every
reinitiation edge equals the initial rail Y (200) plus one fixed row offset
(40) for each input translon whose start position is at or before the edge's
stop X coordinate; and the scanning rail's node for the k-th translon (in
ascending start order) sits at Y = 200 + 40 (k + 1), so the rail's Y-depth
strictly increases with each successive translon. -/
theorem c9_reinitiation_rail (translons : List Translon) (seq : RnaSeq)
    (rts : List RTStop) (fs : List Nat) :
    (∀ e ∈ (calculateTreeLayout translons seq rts fs).edges, e.type = "reinitiation" →
        e.y2 = 200 + 40 * (countStartsLE translons e.x2 : ℤ))
      ∧ (∀ k, k < translons.length →
          ∃ n, (calculateTreeLayout translons seq rts fs).nodes.get? (3 * k + 3) = some n
            ∧ n.type = "scanning" ∧ n.y = 200 + 40 * ((k : ℤ) + 1)) := by
  by_cases hlen : translons.length = 0
  · constructor
    · intro e he hre
      simp only [calculateTreeLayout, if_pos hlen] at he
      rw [List.mem_singleton] at he
      subst he
      simp at hre
    · intro k hk
      omega
  · constructor
    · intro e he hre
      simp only [calculateTreeLayout, if_neg hlen] at he
      rcases List.mem_append.mp he with he2 | he2
      · rw [layoutLoop_reinit_edges seq rts _ _ _ _ _ e he2 hre, getScanningY_eq_countLE]
      · rw [List.mem_singleton] at he2
        subst he2
        simp at hre
    · intro k hk
      simp only [calculateTreeLayout, if_neg hlen]
      rw [show 3 * k + 3 = (3 * k + 2) + 1 from by ring, List.get?_cons_succ]
      rw [List.get?_append (by
        rw [layoutLoop_nodes_length, length_insertionSortB]
        omega)]
      obtain ⟨n, hget, htype, hny⟩ :=
        layoutLoop_scanning_nodes seq rts (insertionSortB translonPosLE translons)
          (insertionSortB translonPosLE translons) 0 200 _ (by norm_num) k
          (by rw [length_insertionSortB]; exact hk)
      refine ⟨n, hget, htype, ?_⟩
      rw [hny]
      push_cast
      ring

/-! ## Translon-builder lemmas -/

theorem mapIdxFrom_length (f : Nat → α → β) :
    ∀ (k : Nat) (l : List α), (mapIdxFrom f k l).length = l.length := by
  intro k l
  induction l generalizing k with
  | nil => rfl
  | cons a t ih => simp [mapIdxFrom, ih]

theorem mem_mapIdxFrom {f : Nat → α → β} :
    ∀ {k : Nat} {l : List α} {b : β}, b ∈ mapIdxFrom f k l → ∃ i a, a ∈ l ∧ b = f i a := by
  intro k l
  induction l generalizing k with
  | nil => intro b hb; exact absurd hb (List.not_mem_nil b)
  | cons a t ih =>
    intro b hb
    rcases List.mem_cons.mp hb with rfl | hb2
    · exact ⟨k, a, List.mem_cons_self a t, rfl⟩
    · obtain ⟨i, a', ha', rfl⟩ := ih hb2
      exact ⟨i, a', List.mem_cons_of_mem a ha', rfl⟩

theorem mem_mapIdxFrom_of_mem (f : Nat → α → β) :
    ∀ (k : Nat) (l : List α) (a : α), a ∈ l → ∃ i, f i a ∈ mapIdxFrom f k l := by
  intro k l
  induction l generalizing k with
  | nil => intro a ha; exact absurd ha (List.not_mem_nil a)
  | cons b t ih =>
    intro a ha
    rcases List.mem_cons.mp ha with rfl | ha2
    · exact ⟨k, List.mem_cons_self _ _⟩
    · obtain ⟨i, hi⟩ := ih (k + 1) a ha2
      exact ⟨i, List.mem_cons_of_mem _ hi⟩

theorem relabelFrom_get? :
    ∀ (k : Nat) (l : List Translon) (i : Nat),
      (relabelFrom k l).get? i
        = (l.get? i).map (fun t =>
            { t with pathId := tLabel (k + i), name := tLabel (k + i) }) := by
  intro k l
  induction l generalizing k with
  | nil => intro i; simp [relabelFrom]
  | cons t rest ih =>
    intro i
    cases i with
    | zero => simp [relabelFrom]
    | succ i' =>
      simp only [relabelFrom, List.get?_cons_succ, ih (k + 1) i']
      have : k + 1 + i' = k + (i' + 1) := by ring
      rw [this]

theorem relabelFrom_length : ∀ (k : Nat) (l : List Translon),
    (relabelFrom k l).length = l.length := by
  intro k l
  induction l generalizing k with
  | nil => rfl
  | cons t rest ih => simp [relabelFrom, ih]

theorem relabelFrom_take : ∀ (k n : Nat) (l : List Translon),
    (relabelFrom k l).take n = relabelFrom k (l.take n) := by
  intro k n l
  induction l generalizing k n with
  | nil => simp [relabelFrom]
  | cons t rest ih =>
    cases n with
    | zero => rfl
    | succ n' => simp [relabelFrom, List.take_succ_cons, ih]

theorem relabelFrom_drop : ∀ (k n : Nat) (l : List Translon),
    (relabelFrom k l).drop n = relabelFrom (k + n) (l.drop n) := by
  intro k n l
  induction l generalizing k n with
  | nil => simp [relabelFrom]
  | cons t rest ih =>
    cases n with
    | zero => rfl
    | succ n' =>
      simp only [relabelFrom, List.drop_succ_cons, ih (k + 1) n']
      have : k + 1 + n' = k + (n' + 1) := by ring
      rw [this]

theorem mem_relabelFrom : ∀ (k : Nat) (l : List Translon) (t : Translon),
    t ∈ relabelFrom k l →
      ∃ j t', t' ∈ l ∧ t = { t' with pathId := tLabel j, name := tLabel j } := by
  intro k l
  induction l generalizing k with
  | nil => intro t ht; exact absurd ht (List.not_mem_nil t)
  | cons a rest ih =>
    intro t ht
    rcases List.mem_cons.mp ht with rfl | ht2
    · exact ⟨k, a, List.mem_cons_self a rest, rfl⟩
    · obtain ⟨j, t', ht', rfl⟩ := ih (k + 1) t ht2
      exact ⟨j, t', List.mem_cons_of_mem a ht', rfl⟩

theorem relabelFrom_mem_of_mem : ∀ (k : Nat) (l : List Translon) (t : Translon),
    t ∈ l → ∃ t' ∈ relabelFrom k l, t'.startNt = t.startNt := by
  intro k l
  induction l generalizing k with
  | nil => intro t ht; exact absurd ht (List.not_mem_nil t)
  | cons a rest ih =>
    intro t ht
    rcases List.mem_cons.mp ht with rfl | ht2
    · exact ⟨_, List.mem_cons_self _ _, rfl⟩
    · obtain ⟨t', ht', heq⟩ := ih (k + 1) t ht2
      exact ⟨t', List.mem_cons_of_mem _ ht', heq⟩

theorem relabelFrom_pairwise {R : Translon → Translon → Prop}
    (hR : ∀ (t t' : Translon) (j j' : Nat), R t t' →
      R { t with pathId := tLabel j, name := tLabel j }
        { t' with pathId := tLabel j', name := tLabel j' }) :
    ∀ (k : Nat) (l : List Translon), l.Pairwise R → (relabelFrom k l).Pairwise R := by
  intro k l
  induction l generalizing k with
  | nil => intro _; exact List.Pairwise.nil
  | cons a rest ih =>
    intro hl
    rw [List.pairwise_cons] at hl
    refine List.Pairwise.cons ?_ (ih (k + 1) hl.2)
    intro t' ht'
    obtain ⟨j, t'', ht'', rfl⟩ := mem_relabelFrom (k + 1) rest t' ht'
    exact hR a t'' k j (hl.1 t'' ht'')

theorem relabelFrom_map_unlabel : ∀ (k : Nat) (l : List Translon),
    (relabelFrom k l).map unlabel = l.map unlabel := by
  intro k l
  induction l generalizing k with
  | nil => rfl
  | cons t rest ih =>
    simp only [relabelFrom, List.map_cons, ih]
    rfl

theorem ensureFold_decomp (mk : StartCodon → Nat → Translon) (anns : List StartCodon)
    (n : Nat) :
    ∀ (es : List Nat) (acc : List Translon),
      ∃ ext, ensureFold mk anns n acc es = acc ++ ext
        ∧ ∀ t ∈ ext, ∃ pos ∈ es, ∃ s, anns.find? (fun s' => s'.pos == pos) = some s
            ∧ t = mk s (n + 1) := by
  intro es
  induction es with
  | nil => intro acc; exact ⟨[], by simp [ensureFold], fun t ht => absurd ht (List.not_mem_nil t)⟩
  | cons pos rest ih =>
    intro acc
    simp only [ensureFold]
    by_cases hany : acc.any (fun t => t.startNt == pos)
    · rw [if_pos hany]
      obtain ⟨ext, heq, hext⟩ := ih acc
      refine ⟨ext, heq, fun t ht => ?_⟩
      obtain ⟨p, hp, s, hfind, hts⟩ := hext t ht
      exact ⟨p, List.mem_cons_of_mem pos hp, s, hfind, hts⟩
    · rw [if_neg hany]
      cases hfind : anns.find? (fun s' => s'.pos == pos) with
      | some s =>
        obtain ⟨ext, heq, hext⟩ := ih (acc ++ [mk s (n + 1)])
        refine ⟨[mk s (n + 1)] ++ ext, by rw [heq, List.append_assoc], fun t ht => ?_⟩
        rcases List.mem_append.mp ht with ht2 | ht2
        · rw [List.mem_singleton] at ht2
          exact ⟨pos, List.mem_cons_self pos rest, s, hfind, ht2⟩
        · obtain ⟨p, hp, s', hfind', hts'⟩ := hext t ht2
          exact ⟨p, List.mem_cons_of_mem pos hp, s', hfind', hts'⟩
      | none =>
        obtain ⟨ext, heq, hext⟩ := ih acc
        refine ⟨ext, heq, fun t ht => ?_⟩
        obtain ⟨p, hp, s, hfind', hts⟩ := hext t ht
        exact ⟨p, List.mem_cons_of_mem pos hp, s, hfind', hts⟩

theorem ensureFold_ensures (mk : StartCodon → Nat → Translon) (anns : List StartCodon)
    (n : Nat) (hmk : ∀ s k, (mk s k).startNt = s.pos) :
    ∀ (es : List Nat) (acc : List Translon) (pos : Nat), pos ∈ es →
      (∃ s ∈ anns, s.pos = pos) →
      ∃ t ∈ ensureFold mk anns n acc es, t.startNt = pos := by
  intro es
  induction es with
  | nil => intro acc pos hpos _; exact absurd hpos (List.not_mem_nil pos)
  | cons p rest ih =>
    intro acc pos hpos hex
    rcases List.mem_cons.mp hpos with rfl | hpos2
    · simp only [ensureFold]
      by_cases hany : acc.any (fun t => t.startNt == pos)
      · rw [if_pos hany]
        rw [List.any_eq_true] at hany
        obtain ⟨t, ht, htp⟩ := hany
        obtain ⟨ext, heq, _⟩ := ensureFold_decomp mk anns n rest acc
        exact ⟨t, by rw [heq]; exact List.mem_append_left ext ht, by simpa using htp⟩
      · rw [if_neg hany]
        cases hfind : anns.find? (fun s' => s'.pos == pos) with
        | some s =>
          obtain ⟨ext, heq, _⟩ :=
            ensureFold_decomp mk anns n rest (acc ++ [mk s (n + 1)])
          refine ⟨mk s (n + 1), ?_, ?_⟩
          · rw [heq]
            exact List.mem_append_left ext (List.mem_append_right acc (by simp))
          · rw [hmk]
            have := List.find?_some hfind
            simpa using this
        | none =>
          obtain ⟨s, hs, hsp⟩ := hex
          have : (anns.find? (fun s' => s'.pos == pos)).isSome := by
            rw [List.find?_isSome]
            exact ⟨s, hs, by simpa using hsp⟩
          rw [hfind] at this
          simp at this
    · simp only [ensureFold]
      by_cases hany : acc.any (fun t => t.startNt == p)
      · rw [if_pos hany]
        exact ih acc pos hpos2 hex
      · rw [if_neg hany]
        cases hfind : anns.find? (fun s' => s'.pos == p) with
        | some s => exact ih _ pos hpos2 hex
        | none => exact ih acc pos hpos2 hex

theorem ensureFold_id (mk : StartCodon → Nat → Translon) (anns : List StartCodon)
    (n : Nat) :
    ∀ (es : List Nat) (acc : List Translon),
      (∀ s ∈ anns, ∃ t ∈ acc, t.startNt = s.pos) →
      ensureFold mk anns n acc es = acc := by
  intro es
  induction es with
  | nil => intro acc _; rfl
  | cons p rest ih =>
    intro acc hall
    simp only [ensureFold]
    by_cases hany : acc.any (fun t => t.startNt == p)
    · rw [if_pos hany]
      exact ih acc hall
    · rw [if_neg hany]
      cases hfind : anns.find? (fun s' => s'.pos == p) with
      | some s =>
        exfalso
        have hs := List.mem_of_find?_eq_some hfind
        have hsp : s.pos = p := by simpa using List.find?_some hfind
        obtain ⟨t, ht, htp⟩ := hall s hs
        exact hany (by rw [List.any_eq_true]; exact ⟨t, ht, by simp [htp, hsp]⟩)
      | none => exact ih acc hall

theorem mem_drop_append {l₁ l₂ : List α} (n : Nat) (h : l₁.length ≤ n) :
    ∀ t ∈ (l₁ ++ l₂).drop n, t ∈ l₂ := by
  intro t ht
  rw [List.drop_append_eq_append_drop, List.drop_eq_nil_of_le h, List.nil_append] at ht
  exact (List.drop_sublist _ _).subset ht

theorem translonLE_iff (a b : Translon) :
    translonLE a b = true ↔
      (b.predictedAbundance < a.predictedAbundance
        ∨ (a.predictedAbundance = b.predictedAbundance ∧ a.startNt ≤ b.startNt)) := by
  simp only [translonLE]
  by_cases hab : a.predictedAbundance = b.predictedAbundance
  · rw [if_pos (by rw [beq_iff_eq]; exact hab), hab]
    simp [lt_irrefl]
  · rw [if_neg (by simp [beq_iff_eq, hab])]
    simp [hab]

theorem translonLE_total (a b : Translon) :
    translonLE a b = true ∨ translonLE b a = true := by
  rw [translonLE_iff, translonLE_iff]
  rcases lt_trichotomy a.predictedAbundance b.predictedAbundance with h | h | h
  · exact Or.inr (Or.inl h)
  · rcases le_total a.startNt b.startNt with hs | hs
    · exact Or.inl (Or.inr ⟨h, hs⟩)
    · exact Or.inr (Or.inr ⟨h.symm, hs⟩)
  · exact Or.inl (Or.inl h)

theorem translonLE_trans (a b c : Translon) :
    translonLE a b = true → translonLE b c = true → translonLE a c = true := by
  intro hab hbc
  rw [translonLE_iff] at hab hbc ⊢
  rcases hab with h1 | ⟨e1, s1⟩ <;> rcases hbc with h2 | ⟨e2, s2⟩
  · exact Or.inl (lt_trans h2 h1)
  · exact Or.inl (e2 ▸ h1)
  · exact Or.inl (by rw [e1]; exact h2)
  · exact Or.inr ⟨e1.trans e2, le_trans s1 s2⟩

theorem translonLE_imp (a b : Translon) (h : translonLE a b = true) :
    b.predictedAbundance < a.predictedAbundance
      ∨ (a.predictedAbundance = b.predictedAbundance ∧ a.startNt ≤ b.startNt) :=
  (translonLE_iff a b).mp h

theorem makeTranslonOf_startNt (rexp : ℚ → ℚ) (seq : RnaSeq) (opts : BuildOptions)
    (s : StartCodon) (k : Nat) :
    (makeTranslonOf rexp seq opts s k).startNt = s.pos := rfl

theorem makeTranslonOf_abundance (rexp : ℚ → ℚ) (seq : RnaSeq) (opts : BuildOptions)
    (s : StartCodon) (k : Nat) :
    (makeTranslonOf rexp seq opts s k).predictedAbundance
      = roundToFixed 4 (jsOrQ (mapGet (translonFluxOf rexp seq opts) s.pos)
          ((makeTranslonOf rexp seq opts s k).initiationProbability)) := rfl

theorem makeTranslonOf_luc (rexp : ℚ → ℚ) (seq : RnaSeq) (opts : BuildOptions)
    (s : StartCodon) (k : Nat) :
    (makeTranslonOf rexp seq opts s k).predictedLUC
      = (makeTranslonOf rexp seq opts s k).predictedAbundance := rfl

theorem buildTranslons_def (rexp : ℚ → ℚ) (seq : RnaSeq) (opts : BuildOptions) :
    buildTranslons rexp seq opts
      = relabelFrom 1 (ensureFold (makeTranslonOf rexp seq opts)
          (startAnnotationsOf rexp seq opts) (allTranslonsOf rexp seq opts).length
          ((insertionSortB translonLE (allTranslonsOf rexp seq opts)).take (limitOf opts))
          (opts.ensureStarts.getD [])) := rfl

theorem buildTranslons_shape (rexp : ℚ → ℚ) (seq : RnaSeq) (opts : BuildOptions) :
    ∀ t ∈ buildTranslons rexp seq opts, ∃ s k,
      t.startNt = (makeTranslonOf rexp seq opts s k).startNt
      ∧ t.predictedAbundance = (makeTranslonOf rexp seq opts s k).predictedAbundance
      ∧ t.predictedLUC = (makeTranslonOf rexp seq opts s k).predictedLUC
      ∧ t.initiationProbability
          = (makeTranslonOf rexp seq opts s k).initiationProbability := by
  intro t ht
  rw [buildTranslons_def] at ht
  obtain ⟨j, t', ht', rfl⟩ := mem_relabelFrom 1 _ t ht
  obtain ⟨ext, heq, hext⟩ := ensureFold_decomp (makeTranslonOf rexp seq opts)
    (startAnnotationsOf rexp seq opts) (allTranslonsOf rexp seq opts).length
    (opts.ensureStarts.getD [])
    ((insertionSortB translonLE (allTranslonsOf rexp seq opts)).take (limitOf opts))
  rw [heq] at ht'
  rcases List.mem_append.mp ht' with h2 | h2
  · have hmem : t' ∈ insertionSortB translonLE (allTranslonsOf rexp seq opts) :=
      (List.take_sublist _ _).subset h2
    rw [mem_insertionSortB] at hmem
    obtain ⟨i, s, _, rfl⟩ := mem_mapIdxFrom hmem
    exact ⟨s, i, rfl, rfl, rfl, rfl⟩
  · obtain ⟨pos, _, s, _, rfl⟩ := hext t' h2
    exact ⟨s, (allTranslonsOf rexp seq opts).length + 1, rfl, rfl, rfl, rfl⟩

/-- C10 counterexample: a concrete build in which the second translon's start
(position 30) has the nonzero normalized flux value 49/480, while its
predictedAbundance is the 4-decimal rounding 1021/10000, which differs from
the flux value itself. -/
theorem c10_counterexample :
    mapGet (translonFluxOf crexp [] c10opts) 30 = some (49 / 480)
      ∧ ¬ ((49 : ℚ) / 480 = 0)
      ∧ ((buildTranslons crexp [] c10opts).get? 1).map
          (fun t => (t.startNt, t.predictedAbundance)) = some (30, 1021 / 10000)
      ∧ ¬ ((1021 : ℚ) / 10000 = 49 / 480) := by decide

/-- C10 (amended): for every translon buildTranslons returns,
predictedAbundance (and predictedLUC) is the 4-decimal rounding
(parseFloat(x.toFixed(4))) of the normalized flux value at its start position
when that value exists and is nonzero; when the flux value is 0 or absent it
is the 4-decimal rounding of the start's resolved initiationProbability
instead. -/
theorem c10_flux_fallback (rexp : ℚ → ℚ) (seq : RnaSeq) (opts : BuildOptions) :
    (∀ t ∈ buildTranslons rexp seq opts, ∀ v,
        mapGet (translonFluxOf rexp seq opts) t.startNt = some v →
          (¬ v = 0 → t.predictedAbundance = roundToFixed 4 v)
            ∧ (v = 0 → t.predictedAbundance = roundToFixed 4 t.initiationProbability))
      ∧ (∀ t ∈ buildTranslons rexp seq opts,
          mapGet (translonFluxOf rexp seq opts) t.startNt = none →
            t.predictedAbundance = roundToFixed 4 t.initiationProbability)
      ∧ (∀ t ∈ buildTranslons rexp seq opts, t.predictedLUC = t.predictedAbundance) := by
  refine ⟨?_, ?_, ?_⟩
  · intro t ht v hv
    obtain ⟨s, k, hstart, habun, _, hip⟩ := buildTranslons_shape rexp seq opts t ht
    rw [makeTranslonOf_startNt] at hstart
    rw [hstart] at hv
    rw [habun, makeTranslonOf_abundance, hv]
    constructor
    · intro hvne
      simp only [jsOrQ]
      rw [if_neg hvne]
    · intro hv0
      simp only [jsOrQ]
      rw [if_pos hv0, hip]
  · intro t ht hv
    obtain ⟨s, k, hstart, habun, _, hip⟩ := buildTranslons_shape rexp seq opts t ht
    rw [makeTranslonOf_startNt] at hstart
    rw [hstart] at hv
    rw [habun, makeTranslonOf_abundance, hv, hip]
    simp only [jsOrQ]
  · intro t ht
    obtain ⟨s, k, _, habun, hluc, _⟩ := buildTranslons_shape rexp seq opts t ht
    rw [hluc, makeTranslonOf_luc, habun]

/-- C6: buildTranslons builds one candidate translon per start annotation,
sorts the candidates descending by predictedAbundance with ties broken by
ascending start position (the sorted list is a sorted permutation of the
candidate list), truncates the sorted list to the limit (default 12 when no
limit option is given) — the kept prefix is, field for field apart from the
relabeled name and pathId, exactly the first limit entries of the sorted
candidate list — appends after truncation any ensured start position that is
present in the full start-annotation set, keeps nothing beyond the limit
except ensured starts, and relabels every surviving translon's name and
pathId sequentially T1, T2, ... in final order. -/
theorem c6_ranking_pipeline (rexp : ℚ → ℚ) (seq : RnaSeq) (opts : BuildOptions) :
    List.Perm (insertionSortB translonLE (allTranslonsOf rexp seq opts))
        (allTranslonsOf rexp seq opts)
      ∧ (insertionSortB translonLE (allTranslonsOf rexp seq opts)).Pairwise
          (fun x y => y.predictedAbundance < x.predictedAbundance
            ∨ (x.predictedAbundance = y.predictedAbundance ∧ x.startNt ≤ y.startNt))
      ∧ ((buildTranslons rexp seq opts).take (limitOf opts)).map unlabel
          = ((insertionSortB translonLE (allTranslonsOf rexp seq opts)).take
              (limitOf opts)).map unlabel
      ∧ ((buildTranslons rexp seq opts).take (limitOf opts)).Pairwise
          (fun x y => y.predictedAbundance < x.predictedAbundance
            ∨ (x.predictedAbundance = y.predictedAbundance ∧ x.startNt ≤ y.startNt))
      ∧ (opts.ensureStarts.getD [] = [] →
          (buildTranslons rexp seq opts).length
            = min (limitOf opts) (startAnnotationsOf rexp seq opts).length)
      ∧ (opts.limit = none → limitOf opts = 12)
      ∧ (∀ pos ∈ opts.ensureStarts.getD [],
          (∃ s ∈ startAnnotationsOf rexp seq opts, s.pos = pos) →
            ∃ t ∈ buildTranslons rexp seq opts, t.startNt = pos)
      ∧ (∀ t ∈ (buildTranslons rexp seq opts).drop (limitOf opts),
          t.startNt ∈ opts.ensureStarts.getD [])
      ∧ (∀ i t, (buildTranslons rexp seq opts).get? i = some t →
          t.name = tLabel (i + 1) ∧ t.pathId = tLabel (i + 1)) := by
  have hsortP : (insertionSortB translonLE (allTranslonsOf rexp seq opts)).Pairwise
      (fun x y => y.predictedAbundance < x.predictedAbundance
        ∨ (x.predictedAbundance = y.predictedAbundance ∧ x.startNt ≤ y.startNt)) :=
    (pairwise_insertionSortB translonLE translonLE_total translonLE_trans _).imp
      (fun h => translonLE_imp _ _ h)
  have htakeE : (buildTranslons rexp seq opts).take (limitOf opts)
      = relabelFrom 1 ((insertionSortB translonLE (allTranslonsOf rexp seq opts)).take
          (limitOf opts)) := by
    rw [buildTranslons_def, relabelFrom_take]
    rcases le_or_lt (limitOf opts)
        (insertionSortB translonLE (allTranslonsOf rexp seq opts)).length with hle | hlt
    · obtain ⟨ext, heq, _⟩ := ensureFold_decomp (makeTranslonOf rexp seq opts)
        (startAnnotationsOf rexp seq opts) (allTranslonsOf rexp seq opts).length
        (opts.ensureStarts.getD [])
        ((insertionSortB translonLE (allTranslonsOf rexp seq opts)).take (limitOf opts))
      rw [heq]
      have hlen : ((insertionSortB translonLE (allTranslonsOf rexp seq opts)).take
          (limitOf opts)).length = limitOf opts := by
        rw [List.length_take]; omega
      rw [List.take_left' hlen]
    · have htake : (insertionSortB translonLE (allTranslonsOf rexp seq opts)).take
          (limitOf opts) = insertionSortB translonLE (allTranslonsOf rexp seq opts) :=
        List.take_of_length_le (le_of_lt hlt)
      have hid : ensureFold (makeTranslonOf rexp seq opts)
          (startAnnotationsOf rexp seq opts) (allTranslonsOf rexp seq opts).length
          ((insertionSortB translonLE (allTranslonsOf rexp seq opts)).take (limitOf opts))
          (opts.ensureStarts.getD [])
          = (insertionSortB translonLE (allTranslonsOf rexp seq opts)).take
              (limitOf opts) := by
        apply ensureFold_id
        intro s hs
        obtain ⟨i, hi⟩ := mem_mapIdxFrom_of_mem
          (fun idx s => makeTranslonOf rexp seq opts s idx) 0
          (startAnnotationsOf rexp seq opts) s hs
        refine ⟨makeTranslonOf rexp seq opts s i, ?_, rfl⟩
        rw [htake]
        exact mem_insertionSortB.mpr hi
      rw [hid, List.take_take, Nat.min_self]
  refine ⟨perm_insertionSortB translonLE (allTranslonsOf rexp seq opts), hsortP,
    ?_, ?_, ?_, ?_, ?_, ?_, ?_⟩
  · rw [htakeE, relabelFrom_map_unlabel]
  · rw [htakeE]
    exact relabelFrom_pairwise (fun _ _ _ _ h => h) 1 _
      (hsortP.sublist (List.take_sublist _ _))
  · intro hE
    rw [buildTranslons_def, hE]
    have h0 : ensureFold (makeTranslonOf rexp seq opts) (startAnnotationsOf rexp seq opts)
        (allTranslonsOf rexp seq opts).length
        ((insertionSortB translonLE (allTranslonsOf rexp seq opts)).take (limitOf opts)) []
        = (insertionSortB translonLE (allTranslonsOf rexp seq opts)).take
            (limitOf opts) := rfl
    have hall : (allTranslonsOf rexp seq opts).length
        = (startAnnotationsOf rexp seq opts).length :=
      mapIdxFrom_length (fun idx s => makeTranslonOf rexp seq opts s idx) 0
        (startAnnotationsOf rexp seq opts)
    rw [h0, relabelFrom_length, List.length_take, length_insertionSortB, hall]
  · intro h
    simp [limitOf, h]
  · intro pos hpos hex
    rw [buildTranslons_def]
    obtain ⟨t, ht, htp⟩ := ensureFold_ensures (makeTranslonOf rexp seq opts)
      (startAnnotationsOf rexp seq opts) (allTranslonsOf rexp seq opts).length
      (fun s k => rfl) (opts.ensureStarts.getD [])
      ((insertionSortB translonLE (allTranslonsOf rexp seq opts)).take (limitOf opts))
      pos hpos hex
    obtain ⟨t', ht', heq'⟩ := relabelFrom_mem_of_mem 1 _ t ht
    exact ⟨t', ht', by rw [heq', htp]⟩
  · intro t ht
    rw [buildTranslons_def, relabelFrom_drop] at ht
    obtain ⟨j, t', ht', rfl⟩ := mem_relabelFrom _ _ t ht
    obtain ⟨ext, heq, hext⟩ := ensureFold_decomp (makeTranslonOf rexp seq opts)
      (startAnnotationsOf rexp seq opts) (allTranslonsOf rexp seq opts).length
      (opts.ensureStarts.getD [])
      ((insertionSortB translonLE (allTranslonsOf rexp seq opts)).take (limitOf opts))
    rw [heq] at ht'
    have ht2 : t' ∈ ext := mem_drop_append (limitOf opts)
      (by rw [List.length_take]; exact min_le_left _ _) t' ht'
    obtain ⟨p, hp, s, hfind, rfl⟩ := hext t' ht2
    have hps : s.pos = p := by
      have hq := List.find?_some hfind
      simpa using hq
    show s.pos ∈ opts.ensureStarts.getD []
    rw [hps]
    exact hp
  · intro i t hget
    rw [buildTranslons_def, relabelFrom_get?] at hget
    cases h2 : (ensureFold (makeTranslonOf rexp seq opts) (startAnnotationsOf rexp seq opts)
        (allTranslonsOf rexp seq opts).length
        ((insertionSortB translonLE (allTranslonsOf rexp seq opts)).take (limitOf opts))
        (opts.ensureStarts.getD [])).get? i with
    | none =>
      rw [h2] at hget
      exact absurd hget (by simp)
    | some t' =>
      rw [h2] at hget
      have ht := Option.some.inj hget
      subst ht
      constructor
      · show tLabel (1 + i) = tLabel (i + 1)
        rw [Nat.add_comm]
      · show tLabel (1 + i) = tLabel (i + 1)
        rw [Nat.add_comm]
